import Mathlib

/-!
Verification development for the QP_Tools Blender add-on.

Shallow embedding of the add-on's host-independent logic:
  * `CleanUp.py`   — duplicate-data cleanup engine (base-name grouping,
    structural-identity grouping, resolution strategies, consumer remapping),
  * `module_helper.py` — `ModuleManager` registration bookkeeping and safe
    wrappers,
  * `asset_cache.py`   — JSON asset cache (safe load/save, library scan),
  * `updater.py`       — background update check.

Modelling conventions:
  * Python strings are `String` (or `List Char` where character-level regex
    semantics matter), Python dicts with string keys are ordered association
    lists, JSON values are the `PyJson` inductive below.
  * Blender datablocks are records carrying exactly the fields the embedded
    code reads; host functions (`bpy.path.abspath`, `os.path.normpath`) are
    abstracted as explicit function parameters.
  * Floats (`diffuse_color`, `metallic`, timestamps, ...) are only ever
    compared for equality or stored by the embedded code, so they are
    modelled by `Int` — no floating-point arithmetic is performed.
  * Fallible host operations (`bpy.utils.register_class`, `open`, `json.load`,
    `os.replace`, network GET) are modelled by explicit outcome parameters
    (`Except`/outcome inductives); a `try/except` block becomes a `match` on
    the outcome.
-/

/-! ## A model of Python/JSON values (asset_cache.py works on `json` data) -/

inductive PyJson where
  | null
  | bool (b : Bool)
  | num (n : Int)
  | str (s : String)
  | arr (elems : List PyJson)
  | obj (fields : List (String × PyJson))

/-- Python truthiness of a JSON value: `None`, `False`, `0`, `""`, `[]` and
`{}` are falsy, everything else is truthy. -/
def PyJson.truthy : PyJson → Bool
  | .null => false
  | .bool b => b
  | .num n => n != 0
  | .str s => s ≠ ""
  | .arr l => !l.isEmpty
  | .obj l => !l.isEmpty

/-- Dictionary key lookup (`d[k]` / `d.get(k)`); `none` on non-dicts. -/
def PyJson.getKey : PyJson → String → Option PyJson
  | .obj fields, k => fields.lookup k
  | _, _ => none

/-- Replace the value at a key in an association list, keeping its position
(Python dict assignment semantics); append at the end when absent. -/
def setEntry (k : String) (v : PyJson) : List (String × PyJson) → List (String × PyJson)
  | [] => [(k, v)]
  | (k', v') :: rest => if k' = k then (k, v) :: rest else (k', v') :: setEntry k v rest

/-- Dictionary key assignment `d[k] = v`; identity on non-dicts (the embedded
code only ever assigns into dicts). -/
def PyJson.setKey : PyJson → String → PyJson → PyJson
  | .obj fields, k, v => .obj (setEntry k v fields)
  | j, _, _ => j

/-- Whether a JSON value is a list. -/
def PyJson.isArr : PyJson → Bool
  | .arr _ => true
  | _ => false

/-- Python `x or {}` for an optional JSON value (`default or {}` in
`safe_load_json`): a missing or falsy value yields the empty dict. -/
def pyOrEmptyDict (d : Option PyJson) : PyJson :=
  match d with
  | none => .obj []
  | some j => if j.truthy then j else .obj []

/-! ## module_helper.py — `ModuleManager` safe wrappers

`bpy.utils.register_class` / `unregister_class` and the wrapped file
operation either succeed or raise; this is the `Except` parameter. The
wrappers return their result together with the list of console messages
they print. -/

/-- Embedding of `ModuleManager.safe_register_class` (module_helper.py
91-100): `try: bpy.utils.register_class(cls); return True` with a broad
`except Exception` that prints (when `report_errors`) and returns `False`. -/
def safe_register_class (registerOutcome : Except String Unit) (report_errors : Bool) :
    Bool × List String :=
  match registerOutcome with
  | .ok _ => (true, [])
  | .error e => (false, if report_errors then ["Error registering: " ++ e] else [])

/-- Embedding of `ModuleManager.safe_unregister_class` (module_helper.py
102-111), same shape as `safe_register_class`. -/
def safe_unregister_class (unregisterOutcome : Except String Unit) (report_errors : Bool) :
    Bool × List String :=
  match unregisterOutcome with
  | .ok _ => (true, [])
  | .error e => (false, if report_errors then ["Error unregistering: " ++ e] else [])

/-- Embedding of `ModuleManager.safe_file_operation` (module_helper.py
141-158): returns the operation's result, or `None` after printing the
error when the operation raises. -/
def safe_file_operation {α : Type} (operationOutcome : Except String α) :
    Option α × List String :=
  match operationOutcome with
  | .ok v => (some v, [])
  | .error e => (none, ["File operation error: " ++ e])

/-- Embedding of `safe_load_json` (asset_cache.py 25-43).
`fileExists` models `os.path.exists(filepath)`; `readOutcome` models
`open` + `json.load` (its error is the caught exception's message). -/
def safe_load_json (fileExists : Bool) (readOutcome : Except String PyJson)
    (default : Option PyJson) : PyJson × List String :=
  if !fileExists then (pyOrEmptyDict default, [])
  else
    match readOutcome with
    | .ok j => (j, [])
    | .error e => (pyOrEmptyDict default, ["Error loading JSON: " ++ e])

/-! ## asset_cache.py — `safe_save_json` (lines 45-75)

The file system is a map from paths to file contents.  Serialization of the
data is abstracted by `full` (the complete serialized document) and a
`DumpOutcome` saying whether `json.dump` ran to completion or failed after
writing a prefix of it to the temporary file. -/

def FileSys : Type := String → Option String

/-- Write a file (create or overwrite). -/
def fsWrite (fs : FileSys) (p : String) (c : String) : FileSys :=
  fun q => if q = p then some c else fs q

/-- Remove a path (the rename takes the temp file away from its old path). -/
def fsRemove (fs : FileSys) (p : String) : FileSys :=
  fun q => if q = p then none else fs q

/-- Outcome of `json.dump(data, f)` into the temporary file. -/
inductive DumpOutcome where
  | completed
  | failedAfter (written : String)

/-- Embedding of `safe_save_json` (asset_cache.py 45-75).

Steps, as in the source: ensure the directory exists (`os.makedirs`, may
fail), write the serialized data to `f"{filepath}.tmp"`, then move the temp
file over the target — `os.replace` when the target exists, else
`os.rename`; both are atomic moves, modelled as one filesystem update.  Any
failure is caught by the broad `except`, which returns `False`. -/
def safe_save_json (filepath : String) (mkdirFails : Bool) (dump : DumpOutcome)
    (full : String) (renameFails : Bool) (fs : FileSys) : Bool × FileSys :=
  if mkdirFails then (false, fs)
  else
    let temp_file := filepath ++ ".tmp"
    match dump with
    | .failedAfter written => (false, fsWrite fs temp_file written)
    | .completed =>
      let fs1 := fsWrite fs temp_file full
      if (fs1 filepath).isSome then
        -- os.replace(temp_file, filepath): atomic replace
        if renameFails then (false, fs1)
        else (true, fsRemove (fsWrite fs1 filepath full) temp_file)
      else
        -- os.rename(temp_file, filepath)
        if renameFails then (false, fs1)
        else (true, fsRemove (fsWrite fs1 filepath full) temp_file)

/-! ## module_helper.py — `ModuleManager` registration bookkeeping

A Python module object, as far as `register_module` / `unregister_module`
read it: the two attributes may be absent (`hasattr` is false), which is
`none`. -/

structure PyModule where
  is_registered : Option Bool
  module_enabled : Option Bool
deriving DecidableEq

/-- Embedding of `ModuleManager.ensure_module_state` (module_helper.py
30-36): create `_is_registered = False` and `module_enabled = True` when the
attributes are missing. `register_module` inlines the same two checks. -/
def ensure_module_state (m : PyModule) : PyModule :=
  { is_registered := some (m.is_registered.getD false),
    module_enabled := some (m.module_enabled.getD true) }

/-- Embedding of `ModuleManager.register_module` (module_helper.py 58-75).
Returns the updated module object and the Python return value. -/
def register_module (m : PyModule) (skip_if_registered : Bool) : PyModule × Bool :=
  let m1 := ensure_module_state m
  if m1.is_registered.getD false && skip_if_registered then (m1, false)
  else if !(m1.module_enabled.getD true) then (m1, false)
  else ({ m1 with is_registered := some true }, true)

/-- Embedding of `ModuleManager.unregister_module` (module_helper.py 77-89). -/
def unregister_module (m : PyModule) (skip_if_not_registered : Bool) : PyModule × Bool :=
  let m1 := ensure_module_state m
  if skip_if_not_registered && !(m1.is_registered.getD false) then (m1, false)
  else ({ m1 with is_registered := some false }, true)

/-! ## CleanUp.py — `get_base_name` (lines 61-64)

`re.match(r'^(.+?)\.(\d{3})$', name)` at character level.  Three points of
Python semantics matter: the default `$` matches at the end of the string
and also just before a newline that is the last character, `.` does not
match a newline, and `\d` on a `str` pattern matches every Unicode decimal
digit (category `Nd`), all of which `int()` parses with their decimal
values. -/

/-- First code points of the contiguous 10-character runs that make up
Unicode general category `Nd` (decimal digits): `\d` matches exactly these
characters and `int()` gives the one at `base + k` the value `k`. -/
def ndDigitBases : List Nat :=
  [48, 1632, 1776, 1984, 2406, 2534, 2662, 2790, 2918, 3046, 3174, 3302,
   3430, 3558, 3664, 3792, 3872, 4160, 4240, 6112, 6160, 6470, 6608, 6784,
   6800, 6992, 7088, 7232, 7248, 42528, 43216, 43264, 43472, 43504, 43600,
   44016, 65296, 66720, 68912, 69734, 69872, 69942, 70096, 70384, 70736,
   70864, 71248, 71360, 71472, 71904, 72016, 72784, 73040, 73120, 92768,
   92864, 93008, 120782, 120792, 120802, 120812, 120822, 123200, 123632,
   125264, 130032]

def isPyDigit (c : Char) : Bool :=
  ndDigitBases.any (fun b => b ≤ c.toNat && c.toNat < b + 10)

def pyDigitVal (c : Char) : Nat :=
  match ndDigitBases.find? (fun b => b ≤ c.toNat && c.toNat < b + 10) with
  | some b => c.toNat - b
  | none => 0

/-- The part of the name the regex can consume: Python's default `$` also
matches just before a newline that is the string's last character. -/
def pyBody (s : List Char) : List Char :=
  match s.reverse with
  | c :: r => if c = '\n' then r.reverse else s
  | [] => s

/-- Embedding of `get_base_name` (CleanUp.py 61-64): if the name (up to the
`$`-tolerated single trailing newline) decomposes as `stem ++ "." ++ d₁d₂d₃`
with Unicode decimal digits, a nonempty newline-free stem (matched by
`(.+?)`), and `1 <= int(d₁d₂d₃) <= 999`, return the stem; otherwise return
the name unchanged. -/
def get_base_name_match (s : List Char) : List Char → List Char
  | d3 :: d2 :: d1 :: dot :: stemRev =>
    if dot = '.' then
      if stemRev.isEmpty then s
      else if isPyDigit d1 && isPyDigit d2 && isPyDigit d3 && stemRev.all (fun c => c ≠ '\n') then
        let v := 100 * pyDigitVal d1 + 10 * pyDigitVal d2 + pyDigitVal d3
        if 1 ≤ v ∧ v ≤ 999 then stemRev.reverse else s
      else s
    else s
  | _ => s

def get_base_name (s : List Char) : List Char :=
  get_base_name_match s (pyBody s).reverse

/-- Spec-side counterpart of claim C9, written from the claim's words alone:
strip exactly when the name ends in a dot followed by exactly three digits
whose value is between 1 and 999, returning the prefix before that suffix;
every other name is unchanged.  (No newline provisions.) -/
def base_name_claimed (s : List Char) : List Char :=
  match s.reverse with
  | d3 :: d2 :: d1 :: '.' :: stemRev =>
    if isPyDigit d1 && isPyDigit d2 && isPyDigit d3 then
      let v := 100 * pyDigitVal d1 + 10 * pyDigitVal d2 + pyDigitVal d3
      if 1 ≤ v ∧ v ≤ 999 then stemRev.reverse else s
    else s
  | _ => s

/-- Spec-side counterpart of the amended claim C9, stated with positional
string operations rather than the implementation's list pattern: after
ignoring a single trailing newline, the name strips exactly when it is at
least 5 characters long, has a dot at position `n-4`, three Unicode decimal
digits after it whose value is 1..999, and a newline-free prefix; the
result is that prefix. -/
def threeDigitValue : List Char → Nat
  | [x, y, z] => 100 * pyDigitVal x + 10 * pyDigitVal y + pyDigitVal z
  | _ => 0

def base_name_amended (s : List Char) : List Char :=
  let body : List Char := if s.getLast? = some '\n' then s.dropLast else s
  let n := body.length
  if 5 ≤ n then
    if body.get? (n - 4) = some '.' ∧
       (body.drop (n - 3)).all isPyDigit ∧
       (body.take (n - 4)).all (fun c => c ≠ '\n') ∧
       1 ≤ threeDigitValue (body.drop (n - 3)) ∧
       threeDigitValue (body.drop (n - 3)) ≤ 999 then
      body.take (n - 4)
    else s
  else s

/-! ### Claim C9 — behaviour of `get_base_name` -/

lemma pyBody_eq_ite (s : List Char) :
    pyBody s = if s.getLast? = some '\n' then s.dropLast else s := by
  unfold pyBody
  rcases hs : s.reverse with _ | ⟨c, r⟩
  · have : s = [] := by simpa using congrArg List.reverse hs
    subst this
    simp
  · have hb : s = r.reverse ++ [c] := by
      have := congrArg List.reverse hs
      simpa using this
    subst hb
    by_cases hc : c = '\n'
    · subst hc
      simp [List.getLast?_concat, List.dropLast_concat]
    · simp [List.getLast?_concat, List.dropLast_concat, hc]


lemma base_name_strip_aux (s b : List Char) :
    get_base_name_match s b.reverse =
    (if 5 ≤ b.length then
      if b.get? (b.length - 4) = some '.' ∧
         (b.drop (b.length - 3)).all isPyDigit ∧
         (b.take (b.length - 4)).all (fun c => c ≠ '\n') ∧
         1 ≤ threeDigitValue (b.drop (b.length - 3)) ∧
         threeDigitValue (b.drop (b.length - 3)) ≤ 999 then
        b.take (b.length - 4)
      else s
    else s) := by
  rcases hb : b.reverse with _ | ⟨c3, _ | ⟨c2, _ | ⟨c1, _ | ⟨c0, rest⟩⟩⟩⟩
  · have : b = [] := by simpa using congrArg List.reverse hb
    subst this; simp [get_base_name_match]
  · have : b = [c3] := by simpa using congrArg List.reverse hb
    subst this; simp [get_base_name_match]
  · have : b = [c2, c3] := by simpa using congrArg List.reverse hb
    subst this; simp [get_base_name_match]
  · have : b = [c1, c2, c3] := by simpa using congrArg List.reverse hb
    subst this; simp [get_base_name_match]
  · have hbb : b = rest.reverse ++ [c0, c1, c2, c3] := by
      have := congrArg List.reverse hb
      simpa using this
    subst hbb
    have hlen : (rest.reverse ++ [c0, c1, c2, c3]).length = rest.length + 4 := by
      simp
    have hm4 : (rest.reverse ++ [c0, c1, c2, c3]).length - 4 = rest.length := by
      rw [hlen]; omega
    have hm3 : (rest.reverse ++ [c0, c1, c2, c3]).length - 3 = rest.length + 1 := by
      rw [hlen]; omega
    have hget : (rest.reverse ++ [c0, c1, c2, c3]).get? rest.length = some c0 := by
      rw [List.get?_append_right (by simp)]
      simp
    have hdrop4 : (rest.reverse ++ [c0, c1, c2, c3]).drop rest.length = [c0, c1, c2, c3] := by
      have := List.drop_left rest.reverse [c0, c1, c2, c3]
      simpa using this
    have hdrop3 : (rest.reverse ++ [c0, c1, c2, c3]).drop (rest.length + 1) = [c1, c2, c3] := by
      rw [← List.drop_drop]
      rw [hdrop4]
      rfl
    have htake : (rest.reverse ++ [c0, c1, c2, c3]).take rest.length = rest.reverse := by
      have := List.take_left rest.reverse [c0, c1, c2, c3]
      simpa using this
    rcases Decidable.em (rest = []) with hre | hre
    · subst hre
      simp only [List.reverse_nil, List.nil_append, List.length_cons, List.length_nil] at *
      by_cases hdot : c0 = '.'
      · subst hdot; simp [get_base_name_match]
      · simp [get_base_name_match, hdot]
    · have h5 : 5 ≤ (rest.reverse ++ [c0, c1, c2, c3]).length := by
        rw [hlen]
        have : 1 ≤ rest.length := by
          cases rest with
          | nil => exact absurd rfl hre
          | cons a t => simp
        omega
      rw [if_pos h5, hm4, hm3, hget, hdrop3, htake]
      by_cases hdot : c0 = '.'
      · subst hdot
        have hEmp : rest.isEmpty = false := by
          simpa [List.isEmpty_iff] using hre
        simp only [get_base_name_match, if_pos rfl, hEmp, Bool.false_eq_true, if_false]
        have hTDV : threeDigitValue [c1, c2, c3] =
            100 * pyDigitVal c1 + 10 * pyDigitVal c2 + pyDigitVal c3 := rfl
        rw [hTDV]
        have hAllRev : (rest.reverse.all fun c => decide (c ≠ '\n')) =
            (rest.all fun c => decide (c ≠ '\n')) := by
          simp [List.all_eq_true]
        rw [hAllRev]
        simp only [if_true]
        have hiff : (True ∧ ([c1, c2, c3].all isPyDigit) = true ∧
            (rest.all fun c => decide (c ≠ '\n')) = true ∧
            1 ≤ 100 * pyDigitVal c1 + 10 * pyDigitVal c2 + pyDigitVal c3 ∧
            100 * pyDigitVal c1 + 10 * pyDigitVal c2 + pyDigitVal c3 ≤ 999) ↔
            ((isPyDigit c1 && isPyDigit c2 && isPyDigit c3 &&
              rest.all fun c => decide (c ≠ '\n')) = true ∧
             (1 ≤ 100 * pyDigitVal c1 + 10 * pyDigitVal c2 + pyDigitVal c3 ∧
              100 * pyDigitVal c1 + 10 * pyDigitVal c2 + pyDigitVal c3 ≤ 999)) := by
          simp only [Bool.and_eq_true, List.all_cons, List.all_nil, Bool.and_true]
          tauto
        simp only [hiff]
        by_cases hc1 : (isPyDigit c1 && isPyDigit c2 && isPyDigit c3 &&
            rest.all fun c => decide (c ≠ '\n')) = true
        · rw [if_pos hc1]
          by_cases hc2 : 1 ≤ 100 * pyDigitVal c1 + 10 * pyDigitVal c2 + pyDigitVal c3 ∧
              100 * pyDigitVal c1 + 10 * pyDigitVal c2 + pyDigitVal c3 ≤ 999
          · rw [if_pos hc2, if_pos ⟨hc1, hc2⟩]
          · rw [if_neg hc2, if_neg (fun h => hc2 h.2)]
        · rw [if_neg hc1, if_neg (fun h => hc1 h.1)]
      · simp only [get_base_name_match]
        rw [if_neg hdot, if_neg]
        rintro ⟨hc, -⟩
        exact hdot (by injection hc)

/-- Claim C9, amended: `get_base_name` strips a duplicate suffix exactly
when, after ignoring the single trailing newline tolerated by the regex's
`$` anchor, the name ends in a dot followed by exactly three Unicode
decimal digits (category `Nd`, the characters `\d` matches and `int()`
parses) whose numeric value is between 1 and 999 and preceded by a
nonempty, newline-free prefix; it then returns that prefix, and every
other name is returned unchanged. -/
theorem C9_get_base_name_strips_exactly_dot_three_digits :
    ∀ s : List Char, get_base_name s = base_name_amended s := by
  intro s
  unfold get_base_name
  rw [base_name_strip_aux s (pyBody s), pyBody_eq_ite]
  rfl

/-- Claim C9 counterexample: on `"a.001\n"` — a name that does not end in a
dot followed by three digits — the code strips the suffix anyway (Python's
`$` matches before a final newline), returning `"a"`, so the claimed
characterization `base_name_claimed` disagrees with the code. -/
theorem C9_counterexample_trailing_newline :
    get_base_name ("a.001\n".toList) = "a".toList ∧
    get_base_name ("a.001\n".toList) ≠ base_name_claimed ("a.001\n".toList) := by
  refine ⟨by decide, by decide⟩

/-- Claim C5 counterexample: a module object whose `module_enabled`
attribute is `False` is rejected by `register_module` even on the very
first call: the call returns `False` and does not set `_is_registered`,
contradicting the claim that the first `register_module(m)` returns `True`
for every module object. -/
theorem C5_counterexample_disabled_module :
    (register_module ⟨none, some false⟩ true).2 = false ∧
    (register_module ⟨none, some false⟩ true).1.is_registered = some false := by
  decide

/-- Claim C5, amended: with the default `skip_if_registered=True`,
`register_module` returns `True` and sets `_is_registered` on the first
call provided the module is enabled (`module_enabled` missing or `True`);
any repeated call while `_is_registered` is `True` returns `False` and
keeps `_is_registered` `True`; and `unregister_module` with the default
`skip_if_not_registered=True` returns `False` and keeps the registration
state `False` when `_is_registered` is not already `True`. -/
theorem C5_registration_bookkeeping_idempotent :
    ∀ m : PyModule,
      (m.is_registered.getD false = false → m.module_enabled.getD true = true →
        (register_module m true).2 = true ∧
        (register_module m true).1.is_registered = some true) ∧
      (m.is_registered = some true →
        (register_module m true).2 = false ∧
        (register_module m true).1.is_registered = some true) ∧
      (m.module_enabled.getD true = true →
        (register_module (register_module m true).1 true).2 = false ∧
        (register_module (register_module m true).1 true).1 =
          (register_module m true).1) ∧
      (m.is_registered.getD false = false →
        (unregister_module m true).2 = false ∧
        (unregister_module m true).1.is_registered = some false) := by
  intro m
  rcases m with ⟨_ | ⟨_ | _⟩, _ | ⟨_ | _⟩⟩ <;> decide

/-- Closed witness for the amended C5 theorem at a fresh module object
(both attributes absent). -/
theorem C5_registration_bookkeeping_idempotent_witness :
    (register_module ⟨none, none⟩ true).2 = true ∧
    (register_module ⟨none, none⟩ true).1.is_registered = some true :=
  (C5_registration_bookkeeping_idempotent ⟨none, none⟩).1 (by decide) (by decide)

/-- Claim C7 counterexample: on an underlying failure, `safe_load_json`
with the non-`None` (but falsy) default `[]` returns `{}` rather than its
default — Python's `default or {}` discards every falsy default, not just
`None`. -/
theorem C7_counterexample_falsy_default :
    (safe_load_json true (.error "boom") (some (.arr []))).1 = .obj [] ∧
    (safe_load_json true (.error "boom") (some (.arr []))).1 ≠ .arr [] := by
  refine ⟨rfl, fun h => ?_⟩
  have h' : PyJson.obj [] = PyJson.arr [] := h
  exact PyJson.noConfusion h'

/-- Claim C7, amended: the safe wrappers never propagate an exception from
the operation they wrap: for every underlying failure,
`safe_register_class` and `safe_unregister_class` return `False`,
`safe_file_operation` returns `None`, and `safe_load_json` returns its
default when the default is truthy and `{}` when the default is `None` or
otherwise falsy (the same rule applies when the file does not exist), each
after logging the error to the console. -/
theorem C7_safe_wrappers_never_propagate :
    ∀ (e : String) (default : Option PyJson),
      ((safe_register_class (.error e) true).1 = false ∧
        (safe_register_class (.error e) true).2 ≠ []) ∧
      ((safe_unregister_class (.error e) true).1 = false ∧
        (safe_unregister_class (.error e) true).2 ≠ []) ∧
      ((safe_file_operation (α := PyJson) (.error e)).1 = none ∧
        (safe_file_operation (α := PyJson) (.error e)).2 ≠ []) ∧
      ((safe_load_json true (.error e) default).2 ≠ []) ∧
      (∀ j, default = some j → j.truthy = true →
        (safe_load_json true (.error e) default).1 = j) ∧
      (∀ j, default = some j → j.truthy = false →
        (safe_load_json true (.error e) default).1 = .obj []) ∧
      (default = none → (safe_load_json true (.error e) default).1 = .obj []) ∧
      (∀ readOutcome j, default = some j → j.truthy = true →
        (safe_load_json false readOutcome default).1 = j) ∧
      (∀ readOutcome, default = none →
        (safe_load_json false readOutcome default).1 = .obj []) := by
  intro e default
  refine ⟨⟨rfl, by simp [safe_register_class]⟩,
    ⟨rfl, by simp [safe_unregister_class]⟩,
    ⟨rfl, by simp [safe_file_operation]⟩,
    by simp [safe_load_json],
    fun j hj htr => by subst hj; simp [safe_load_json, pyOrEmptyDict, htr],
    fun j hj htr => by subst hj; simp [safe_load_json, pyOrEmptyDict, htr],
    fun hj => by subst hj; simp [safe_load_json, pyOrEmptyDict],
    fun readOutcome j hj htr => by subst hj; simp [safe_load_json, pyOrEmptyDict, htr],
    fun readOutcome hj => by subst hj; simp [safe_load_json, pyOrEmptyDict]⟩

/-- Closed witness for the amended C7 theorem: a failing load with a truthy
default returns that default. -/
theorem C7_safe_wrappers_never_propagate_witness :
    (safe_load_json true (.error "io error")
      (some (.obj [("k", .num 1)]))).1 = .obj [("k", .num 1)] :=
  (C7_safe_wrappers_never_propagate "io error"
    (some (.obj [("k", .num 1)]))).2.2.2.2.1 (.obj [("k", .num 1)]) rfl rfl

lemma append_tmp_ne (s : String) : s ++ ".tmp" ≠ s := by
  intro h
  have hlen := congrArg String.length h
  rw [String.length_append] at hlen
  have h4 : ".tmp".length = 4 := by decide
  omega

/-- Claim C10: `safe_save_json` is atomic with respect to the target path:
it serializes into the sibling `<filepath>.tmp` and only then renames that
file over the target, so on any failure (directory creation, serialization,
rename) it returns `False` and the target keeps its old contents, and the
target never holds a partially written document — after every run its
contents are either unchanged or the complete serialization. -/
theorem C10_safe_save_json_atomic :
    ∀ (filepath : String) (mkdirFails : Bool) (dump : DumpOutcome) (full : String)
      (renameFails : Bool) (fs : FileSys),
      ((safe_save_json filepath mkdirFails dump full renameFails fs).1 = false →
        (safe_save_json filepath mkdirFails dump full renameFails fs).2 filepath =
          fs filepath) ∧
      ((safe_save_json filepath mkdirFails dump full renameFails fs).1 = true →
        (safe_save_json filepath mkdirFails dump full renameFails fs).2 filepath =
          some full) ∧
      ((safe_save_json filepath mkdirFails dump full renameFails fs).2 filepath =
          fs filepath ∨
        (safe_save_json filepath mkdirFails dump full renameFails fs).2 filepath =
          some full) := by
  intro filepath mkdirFails dump full renameFails fs
  have htmp : filepath ≠ filepath ++ ".tmp" := fun h => append_tmp_ne filepath h.symm
  cases mkdirFails with
  | true => exact ⟨fun _ => rfl, fun h => by simp [safe_save_json] at h, Or.inl rfl⟩
  | false =>
    cases dump with
    | failedAfter written =>
      refine ⟨fun _ => ?_, fun h => by simp [safe_save_json] at h, Or.inl ?_⟩ <;>
        simp [safe_save_json, fsWrite, htmp]
    | completed =>
      cases renameFails with
      | true =>
        refine ⟨fun _ => ?_, fun h => ?_, Or.inl ?_⟩
        · simp [safe_save_json, fsWrite, htmp]
        · simp only [safe_save_json] at h
          split at h <;> simp at h
        · simp [safe_save_json, fsWrite, htmp]
      | false =>
        refine ⟨fun h => ?_, fun _ => ?_, Or.inr ?_⟩
        · exfalso
          simp only [safe_save_json] at h
          split at h <;> simp_all
        · simp [safe_save_json, fsWrite, fsRemove, htmp]
        · simp [safe_save_json, fsWrite, fsRemove, htmp]

/-- Closed witness for the C10 theorem: a fully successful save leaves the
complete serialization at the target path. -/
theorem C10_safe_save_json_atomic_witness :
    (safe_save_json "assets_cache.json" false .completed "{}" false
      (fun _ => none)).2 "assets_cache.json" = some "{}" :=
  (C10_safe_save_json_atomic "assets_cache.json" false .completed "{}" false
    (fun _ => none)).2.1 rfl

/-! ## updater.py — background update check (`_do_check`, lines 89-138)

The network is abstracted as a function from URL to outcome, so that the
theorem can state that the check depends only on the response for the
single fixed `MANIFEST_URL`.  `json.loads` plus the `data.get("addon",
{})`, `.get("version", "")`, `.get("changelog", "")`,
`.get("download_url", "")` chain is abstracted as a parser returning the
three (already defaulted) strings, or `none` when the body is not valid
JSON (`json.JSONDecodeError`). -/

def MANIFEST_URL : String :=
  "https://raw.githubusercontent.com/Orbi51/QP_Tools/main/update_info.json"

inductive FetchOutcome where
  | ok (body : String)
  | urlError (e : String)
  | timeoutError (e : String)
  | osError (e : String)

structure UpdateManifest where
  addon_version : String
  addon_changelog : String
  addon_download_url : String

/-- The `_update_state` module dict, with the fields `_do_check` touches
(`download_progress` / `download_status` are untouched by it and omitted
here as they belong to the download path). -/
structure UpdateState where
  checked : Bool
  checking : Bool
  addon_update_available : Bool
  addon_remote_version : String
  addon_changelog : String
  addon_download_url : String
  error : String
  addon_dismissed : Bool
deriving DecidableEq

/-- The persistent `updater_state.json` contents. -/
structure PersistState where
  last_check : String
  dismissed_addon_version : String
deriving DecidableEq

/-- Embedding of Python `int()` on one version component: a nonempty run
of Unicode decimal digits (a non-numeric component raises `ValueError`,
which `_is_newer` converts to `False`). -/
def pyParseNat (s : String) : Option Nat :=
  if s.length > 0 && s.toList.all isPyDigit then
    some (s.toList.foldl (fun a c => 10 * a + pyDigitVal c) 0)
  else none

/-- `tuple(int(x) for x in v.split('.'))`, or `none` on `ValueError`. -/
def parseVersionTuple (s : String) : Option (List Nat) :=
  (s.splitOn ".").mapM pyParseNat

/-- Python tuple `>` comparison: lexicographic, a proper prefix is
smaller. -/
def pyTupleGt : List Nat → List Nat → Bool
  | _ :: _, [] => true
  | [], _ => false
  | a :: as, b :: bs => if a > b then true else if a < b then false else pyTupleGt as bs

/-- Embedding of `_is_newer` (updater.py 79-84). -/
def _is_newer (remote local_ : String) : Bool :=
  match parseVersionTuple remote, parseVersionTuple local_ with
  | some r, some l => pyTupleGt r l
  | _, _ => false

/-- The `finally` block of `_do_check` (updater.py 131-138): sets
`checked`, clears `checking`, resets `_manual_check` (third component of
the result). The `bpy.app.timers.register` redraw call is host UI glue. -/
def doCheckFinish (st : UpdateState) (p : PersistState) : UpdateState × PersistState × Bool :=
  ({ st with checked := true, checking := false }, p, false)

/-- Embedding of `_do_check` (updater.py 89-138).

`fetch` models `urllib.request.urlopen` on a URL (the GET is performed on
`MANIFEST_URL` only); `parse` models `json.loads` plus the `get` chains;
`persistent` is the `_load_updater_state()` result and the returned
`PersistState` what `_save_updater_state` writes; `manual` is the
`_manual_check` global; `nowString` is `datetime.now().strftime(...)`.
Result: (`_update_state`, persistent state, `_manual_check`). -/
def _do_check (fetch : String → FetchOutcome) (parse : String → Option UpdateManifest)
    (currentVersion : String) (manual : Bool) (nowString : String)
    (persistent : PersistState) (st0 : UpdateState) : UpdateState × PersistState × Bool :=
  let st := { st0 with checking := true, error := "" }
  match fetch MANIFEST_URL with
  | .urlError e => doCheckFinish { st with error := "Network error: " ++ e } persistent
  | .timeoutError e => doCheckFinish { st with error := "Network error: " ++ e } persistent
  | .osError e => doCheckFinish { st with error := "Network error: " ++ e } persistent
  | .ok body =>
    match parse body with
    | none =>
      doCheckFinish { st with error := "Invalid update manifest" } persistent
    | some data =>
      let remote_ver := data.addon_version
      let st1 :=
        if remote_ver ≠ "" && _is_newer remote_ver currentVersion then
          let st' := { st with
            addon_update_available := true,
            addon_remote_version := remote_ver,
            addon_changelog := data.addon_changelog,
            addon_download_url := data.addon_download_url }
          if manual then { st' with addon_dismissed := false }
          else { st' with
            addon_dismissed := decide (remote_ver = persistent.dismissed_addon_version) }
        else
          { st with addon_update_available := false, addon_dismissed := false }
      doCheckFinish st1 { persistent with last_check := nowString }

/-- Projections of the `finally` block: `checked` is set, `checking`
cleared, and the error field is whatever the `try`/`except` body left. -/
lemma doCheckFinish_checked (st : UpdateState) (p : PersistState) :
    (doCheckFinish st p).1.checked = true := rfl

lemma doCheckFinish_checking (st : UpdateState) (p : PersistState) :
    (doCheckFinish st p).1.checking = false := rfl

lemma doCheckFinish_error (st : UpdateState) (p : PersistState) :
    (doCheckFinish st p).1.error = st.error := rfl

/-- Claim C6: the background update check GETs only the single fixed
`MANIFEST_URL` — the whole run depends only on the response at that URL —
and for every run: a network error, timeout, or OS error records a
"Network error: ..." message in `_update_state['error']`, a body that is
not valid JSON records "Invalid update manifest" (never raising — the
embedding is total), and in every case the run finishes with
`checked = True` and `checking = False`. -/
theorem C6_do_check_fixed_url_and_error_handling :
    ∀ (fetch fetch' : String → FetchOutcome) (parse : String → Option UpdateManifest)
      (cv nowStr : String) (man : Bool) (p : PersistState) (st : UpdateState),
      (fetch MANIFEST_URL = fetch' MANIFEST_URL →
        _do_check fetch parse cv man nowStr p st =
          _do_check fetch' parse cv man nowStr p st) ∧
      ((_do_check fetch parse cv man nowStr p st).1.checked = true ∧
        (_do_check fetch parse cv man nowStr p st).1.checking = false) ∧
      (∀ e, (fetch MANIFEST_URL = .urlError e ∨ fetch MANIFEST_URL = .timeoutError e ∨
          fetch MANIFEST_URL = .osError e) →
        (_do_check fetch parse cv man nowStr p st).1.error = "Network error: " ++ e) ∧
      (∀ body, fetch MANIFEST_URL = .ok body → parse body = none →
        (_do_check fetch parse cv man nowStr p st).1.error = "Invalid update manifest") ∧
      (∀ body data, fetch MANIFEST_URL = .ok body → parse body = some data →
        (_do_check fetch parse cv man nowStr p st).1.error = "") := by
  intro fetch fetch' parse cv nowStr man p st
  refine ⟨fun hsame => by unfold _do_check; rw [hsame], ?_, fun e he => ?_,
    fun body hb hp => ?_, fun body data hb hp => ?_⟩
  · rcases hf : fetch MANIFEST_URL with body | e | e | e <;>
      simp only [_do_check, hf, doCheckFinish_checked, doCheckFinish_checking] <;>
      try exact ⟨trivial, trivial⟩
    rcases parse body with _ | data <;>
      simp [doCheckFinish_checked, doCheckFinish_checking]
  · unfold _do_check
    rcases he with he | he | he <;> rw [he] <;> rw [doCheckFinish_error]
  · unfold _do_check
    rw [hb]
    simp only [hp]
    rw [doCheckFinish_error]
  · unfold _do_check
    rw [hb]
    simp only [hp]
    rw [doCheckFinish_error]
    split
    · split <;> rfl
    · rfl

/-- Closed witness for the C6 theorem, exercising the network-error clause
at a concrete timeout. -/
theorem C6_do_check_fixed_url_and_error_handling_witness :
    (_do_check (fun _ => .timeoutError "timed out") (fun _ => none) "1.0.0" false
      "2026-01-01 00:00" ⟨"", ""⟩
      ⟨false, false, false, "", "", "", "", false⟩).1.error =
      "Network error: " ++ "timed out" :=
  (C6_do_check_fixed_url_and_error_handling (fun _ => .timeoutError "timed out")
    (fun _ => .ok "{}") (fun _ => none) "1.0.0" "2026-01-01 00:00" false
    ⟨"", ""⟩ ⟨false, false, false, "", "", "", "", false⟩).2.2.1 "timed out"
    (Or.inr (Or.inl rfl))

/-! ## asset_cache.py — cache layout after a library scan

`scan_library_assets` walks the library directory, loads each `.blend`
file's asset names and a category derived from its relative path; the
directory walk and `bpy.data.libraries.load` are host operations, so the
scan's input is the list of `(blend_file, category, object_names)` found.
The cache is JSON (`PyJson`). -/

/-- Embedding of `update_cache_with_library` (asset_cache.py 132-153). -/
def update_cache_with_library (now : Int) (cache : PyJson) (library_name : String)
    (assets : PyJson) : PyJson :=
  let cache1 := match cache.getKey "libraries" with
    | none => cache.setKey "libraries" (.obj [])
    | some _ => cache
  match cache1.getKey "libraries" with
  | some libs =>
    cache1.setKey "libraries"
      (libs.setKey library_name (.obj [("last_scan", .num now), ("assets", assets)]))
  | none => cache1

/-- The deduplication in the scan loop (asset_cache.py 203-214): a per-file
`unique_items` set keyed by `f"{blend_file}:{obj_name}"` keeps only the
first occurrence of each name. -/
def scanFileAssetNames (blend_file : String) (names : List String) : List String :=
  (names.foldl (fun (acc : List String × List String) n =>
    let key := blend_file ++ ":" ++ n
    if key ∈ acc.1 then acc else (acc.1 ++ [key], acc.2 ++ [n])) ([], [])).2

/-- The `asset_data` dict built for each found asset
(asset_cache.py 225-232). -/
def mkAssetData (now : Int) (blend_file category n : String) : PyJson :=
  .obj [("name", .str n), ("filepath", .str blend_file), ("category", .str category),
        ("type", .str "objects"), ("timestamp", .num now), ("enabled", .bool true)]

/-- Embedding of the cache-relevant part of `scan_library_assets`
(asset_cache.py 155-244): collect `new_assets` over all found blend files
and store them via `update_cache_with_library`; returns the updated cache
and `assets_found`. -/
def scan_library_assets (now : Int) (files : List (String × String × List String))
    (asset_cache : PyJson) (library_name : String) : PyJson × Nat :=
  let new_assets := files.flatMap (fun fc =>
    (scanFileAssetNames fc.1 fc.2.2).map (mkAssetData now fc.1 fc.2.1))
  (update_cache_with_library now asset_cache library_name (.arr new_assets),
   new_assets.length)

lemma lookup_setEntry_self (k : String) (v : PyJson) (fields : List (String × PyJson)) :
    (setEntry k v fields).lookup k = some v := by
  induction fields with
  | nil => simp [setEntry, List.lookup]
  | cons kv rest ih =>
    obtain ⟨k', v'⟩ := kv
    by_cases h : k' = k
    · subst h
      simp [setEntry, List.lookup]
    · have hbeq : (k == k') = false := beq_eq_false_iff_ne.mpr (Ne.symm h)
      simp [setEntry, h, List.lookup, ih, hbeq]

lemma getKey_setKey_self (fields : List (String × PyJson)) (k : String) (v : PyJson) :
    (PyJson.setKey (.obj fields) k v).getKey k = some v := by
  simp [PyJson.setKey, PyJson.getKey, lookup_setEntry_self]

lemma getKey_obj_setEntry (fields : List (String × PyJson)) (k : String) (v : PyJson) :
    (PyJson.obj (setEntry k v fields)).getKey k = some v := by
  simp [PyJson.getKey, lookup_setEntry_self]

/-- Claim C4 counterexample: after a scan, the cache value stored under the
scanned library's name is not a list of asset dicts — it is the dict
`{"last_scan": ..., "assets": [...]}` with the list nested under
`"assets"`. -/
theorem C4_counterexample_library_maps_to_dict_not_list :
    ((scan_library_assets 0 [] (.obj []) "TestLib").1.getKey "libraries").bind
        (fun libs => libs.getKey "TestLib") =
      some (.obj [("last_scan", .num 0), ("assets", .arr [])]) ∧
    PyJson.isArr (.obj [("last_scan", .num 0), ("assets", .arr [])]) = false := by
  exact ⟨rfl, rfl⟩

/-- Claim C4, amended: after a library scan the cache maps the scanned
library's name to the dict `{"last_scan": <scan time>, "assets": [...]}`,
whose `"assets"` member is the list of asset dicts, each carrying the
fields `name`, `filepath`, `category`, `enabled` (plus `type` and
`timestamp`). -/
theorem C4_cache_shape_after_scan :
    ∀ (now : Int) (files : List (String × String × List String)) (lib : String)
      (cfields : List (String × PyJson)) (cache : PyJson),
      cache = .obj cfields →
      (∀ v, cache.getKey "libraries" = some v → ∃ lf, v = PyJson.obj lf) →
      ∃ assetsList,
        ((scan_library_assets now files cache lib).1.getKey "libraries").bind
            (fun libs => libs.getKey lib) =
          some (.obj [("last_scan", .num now), ("assets", .arr assetsList)]) ∧
        ∀ a ∈ assetsList, ∃ n f cat,
          a.getKey "name" = some (.str n) ∧
          a.getKey "filepath" = some (.str f) ∧
          a.getKey "category" = some (.str cat) ∧
          a.getKey "enabled" = some (.bool true) ∧
          a.getKey "type" = some (.str "objects") ∧
          a.getKey "timestamp" = some (.num now) := by
  intro now files lib cfields cache hc hlibobj
  subst hc
  refine ⟨files.flatMap (fun fc =>
    (scanFileAssetNames fc.1 fc.2.2).map (mkAssetData now fc.1 fc.2.1)), ?_, ?_⟩
  · unfold scan_library_assets update_cache_with_library
    cases hlk : (PyJson.obj cfields).getKey "libraries" with
    | none =>
      have hc1 : PyJson.setKey (.obj cfields) "libraries" (.obj []) =
          .obj (setEntry "libraries" (.obj []) cfields) := rfl
      simp only [hlk, hc1, getKey_obj_setEntry]
      rw [getKey_setKey_self]
      simp only [Option.some_bind]
      rw [getKey_setKey_self]
    | some v =>
      obtain ⟨lf, rfl⟩ := hlibobj v hlk
      simp only [hlk]
      rw [getKey_setKey_self]
      simp only [Option.some_bind]
      rw [getKey_setKey_self]
  · intro a ha
    simp only [List.mem_flatMap] at ha
    obtain ⟨fc, hfc, ha⟩ := ha
    simp only [List.mem_map] at ha
    obtain ⟨n, hn, rfl⟩ := ha
    exact ⟨n, fc.1, fc.2.1, rfl, rfl, rfl, rfl, rfl, rfl⟩

/-- Closed witness for the amended C4 theorem: a scan of one blend file
containing one object asset, starting from an empty cache. -/
theorem C4_cache_shape_after_scan_witness :
    ∃ assetsList,
      ((scan_library_assets 0 [("lib/a.blend", "Default", ["Cube"])]
          (.obj []) "LibA").1.getKey "libraries").bind
          (fun libs => libs.getKey "LibA") =
        some (.obj [("last_scan", .num 0), ("assets", .arr assetsList)]) ∧
      ∀ a ∈ assetsList, ∃ n f cat,
        PyJson.getKey a "name" = some (.str n) ∧
        PyJson.getKey a "filepath" = some (.str f) ∧
        PyJson.getKey a "category" = some (.str cat) ∧
        PyJson.getKey a "enabled" = some (.bool true) ∧
        PyJson.getKey a "type" = some (.str "objects") ∧
        PyJson.getKey a "timestamp" = some (.num 0) :=
  C4_cache_shape_after_scan 0 [("lib/a.blend", "Default", ["Cube"])] "LibA" []
    (.obj []) rfl (fun v hv => by simp [PyJson.getKey, List.lookup] at hv)

/-! ## CleanUp.py — the duplicate-data cleanup engine

The engine is generic over the datablock type: `ident` is the per-type
structural comparison (`are_items_identical_by_type` dispatches on the
collection), `baseName` is `get_base_name(item.name)` and `isLinked` is
`is_linked_data`.  Datablocks are compared with `==` in Python; Blender
datablock names are unique within a collection, so value equality of the
item records (which carry the name) models object identity. -/

/-- `get_base_name` on `String` values (item names). -/
def get_base_name_str (s : String) : String :=
  (get_base_name s.toList).asString

/-- One entry of the `identity_groups` list: a `{'representative': ...,
'members': [...]}` dict (CleanUp.py 231-234). -/
structure IdentityGroup (α : Type) where
  representative : α
  members : List α
deriving DecidableEq

/-- Inner loop of `group_items_by_identity` (CleanUp.py 221-227): append
the item to the first group whose representative it is identical to;
the Bool reports whether it was placed. -/
def addToFirstMatch {α : Type} (ident : α → α → Bool) (item : α) :
    List (IdentityGroup α) → List (IdentityGroup α) × Bool
  | [] => ([], false)
  | g :: gs =>
    if ident item g.representative then
      ({ g with members := g.members ++ [item] } :: gs, true)
    else
      let r := addToFirstMatch ident item gs
      (g :: r.1, r.2)

/-- Embedding of `group_items_by_identity` (CleanUp.py 213-236): the first
item of each group becomes its representative. -/
def group_items_by_identity {α : Type} (ident : α → α → Bool) (items : List α) :
    List (IdentityGroup α) :=
  items.foldl (fun groups item =>
    let r := addToFirstMatch ident item groups
    if r.2 then r.1 else groups ++ [⟨item, [item]⟩]) []

/-- `base_groups.setdefault(base_name, []).append(item)` on an ordered
association list (Python dicts preserve insertion order). -/
def upsertBase {α : Type} (bn : String) (item : α) :
    List (String × List α) → List (String × List α)
  | [] => [(bn, [item])]
  | (k, v) :: rest =>
    if k = bn then (k, v ++ [item]) :: rest else (k, v) :: upsertBase bn item rest

/-- First phase of `analyze_data_conflicts_with_grouping` (CleanUp.py
240-245) and of `_standard_cleanup_with_grouping` (889-892): group the
collection by base name. -/
def base_name_groups {α : Type} (baseName : α → String) (items : List α) :
    List (String × List α) :=
  items.foldl (fun acc item => upsertBase (baseName item) item acc) []

/-- One value of the `conflicts` dict built by
`analyze_data_conflicts_with_grouping` (CleanUp.py 271-277). -/
structure ConflictInfo (α : Type) where
  items : List α
  local_items : List α
  linked_items : List α
  conflict_types : List String
  identity_groups : List (IdentityGroup α)
deriving DecidableEq

/-- Embedding of `analyze_data_conflicts_with_grouping` (CleanUp.py
238-279): keep only base-name groups with at least two items, attach
identity groups, the local/linked split and the conflict-type tags. -/
def analyze_data_conflicts_with_grouping {α : Type} (ident : α → α → Bool)
    (baseName : α → String) (isLinked : α → Bool) (items : List α) :
    List (String × ConflictInfo α) :=
  (base_name_groups baseName items).filterMap (fun bg =>
    if bg.2.length ≤ 1 then none
    else
      let igroups := group_items_by_identity ident bg.2
      let lcl := bg.2.filter (fun i => !isLinked i)
      let lnk := bg.2.filter (fun i => isLinked i)
      let ct := (if lcl.length > 1 then ["Local Duplicates"] else []) ++
                (if lnk.length > 1 then ["Multiple Linked"] else []) ++
                (if !lcl.isEmpty && !lnk.isEmpty then ["Local and Linked"] else []) ++
                (if igroups.length > 1 then ["Non Identical"] else [])
      some (bg.1, ⟨bg.2, lcl, lnk, ct, igroups⟩))

/-- The visible effects of one cleanup run: each removal is preceded by a
remap of the removed datablock onto the kept one. -/
inductive CleanupEvent (α : Type) where
  | remap (old kept : α)
  | removed (old : α)
deriving DecidableEq

/-- The `self._remap_data(member, rep); self.data_collection.remove(member)`
pair (CleanUp.py 767-768 and analogues). -/
def remapRemoveBlock {α : Type} (m rep : α) : List (CleanupEvent α) :=
  [.remap m rep, .removed m]

/-- State threaded through an execution: the data collection (datablock
removal is `List.erase`, exact under unique names) and the event trace. -/
def CleanupState (α : Type) : Type := List α × List (CleanupEvent α)

/-- The member loop shared by `_auto_clean_execution` (CleanUp.py 757-769)
and `_standard_cleanup_with_grouping` (914-927): skip the representative,
skip linked members, remap and remove everything else. -/
def processGroupMembers {α : Type} [DecidableEq α] (isLinked : α → Bool) (rep : α)
    (members : List α) (st : CleanupState α) : CleanupState α :=
  members.foldl (fun st m =>
    if m = rep then st
    else if isLinked m then st
    else (st.1.erase m, st.2 ++ remapRemoveBlock m rep)) st

/-- `representative = local_members[0] if local_members else members[0]`
(CleanUp.py 754-755 / 910-912); `none` only for empty member lists, which
the `len(members) <= 1` guard rules out. -/
def chooseRepresentative {α : Type} (isLinked : α → Bool) (members : List α) : Option α :=
  match members.filter (fun m => !isLinked m) with
  | m :: _ => some m
  | [] => members.head?

/-- The identity-group loop of `_auto_clean_execution` (CleanUp.py 747-769)
and `_standard_cleanup_with_grouping` (904-927). -/
def processIdentityGroups {α : Type} [DecidableEq α] (isLinked : α → Bool)
    (igroups : List (IdentityGroup α)) (st : CleanupState α) : CleanupState α :=
  igroups.foldl (fun st g =>
    if g.members.length ≤ 1 then st
    else
      match chooseRepresentative isLinked g.members with
      | none => st
      | some rep => processGroupMembers isLinked rep g.members st) st

/-- Embedding of `_auto_clean_execution` (CleanUp.py 710-776): analyze the
collection, and for each conflict that has an identity group with more
than one local member, regroup the current collection's items of that base
name and clean each identity group.  The `processed`/`skipped` counters
feed only the report message and are omitted. -/
def auto_clean_execution {α : Type} [DecidableEq α] (ident : α → α → Bool)
    (baseName : α → String) (isLinked : α → Bool) (coll0 : List α) : CleanupState α :=
  let conflicts := analyze_data_conflicts_with_grouping ident baseName isLinked coll0
  conflicts.foldl (fun st bnInfo =>
    let meaningful := bnInfo.2.identity_groups.any (fun g =>
      (g.members.filter (fun m => !isLinked m)).length > 1)
    if !meaningful then st
    else
      let items := st.1.filter (fun i => baseName i == bnInfo.1)
      if items.length ≤ 1 then st
      else processIdentityGroups isLinked (group_items_by_identity ident items) st)
    (coll0, [])

/-- Embedding of `_standard_cleanup_with_grouping` (CleanUp.py 887-934):
regroup the whole collection by base name and clean each identity group of
every base-name group with at least two items. -/
def standard_cleanup_with_grouping {α : Type} [DecidableEq α] (ident : α → α → Bool)
    (baseName : α → String) (isLinked : α → Bool) (coll0 : List α) : CleanupState α :=
  (base_name_groups baseName coll0).foldl (fun st bg =>
    if bg.2.length ≤ 1 then st
    else processIdentityGroups isLinked (group_items_by_identity ident bg.2) st)
    (coll0, [])

/-- One entry of the operator's `conflicts` UI collection, as the
execution paths read it: the base name and the per-conflict skip flag. -/
structure UIConflict where
  base_name : String
  skip_this_conflict : Bool
deriving DecidableEq

/-- Embedding of `_choose_data_execution` (CleanUp.py 778-832): for each
non-skipped conflict, re-read the items of that base name from the current
collection; when there are at least two local items and the stored
selection names one of them, remap every other non-linked item onto the
selected target and remove it.  (`sel` is `_conflict_selections[...]`;
an empty selected name is falsy in Python and skipped.) -/
def choose_data_step {α : Type} [DecidableEq α] (baseName : α → String)
    (isLinked : α → Bool) (name : α → String) (sel : String → Option String)
    (st : CleanupState α) (c : UIConflict) : CleanupState α :=
  if c.skip_this_conflict then st
  else
    let all_items := st.1.filter (fun i => baseName i == c.base_name)
    let local_items := all_items.filter (fun i => !isLinked i)
    if local_items.length < 2 then st
    else
      let selected := (sel c.base_name).getD ""
      if selected = "" then st
      else
        match all_items.find? (fun i => name i == selected) with
        | none => st
        | some target =>
          let victims := all_items.filter (fun i => decide (i ≠ target) && !isLinked i)
          (victims.foldl (fun l v => l.erase v) st.1,
           st.2 ++ victims.flatMap (fun v => remapRemoveBlock v target))

def choose_data_execution {α : Type} [DecidableEq α] (baseName : α → String)
    (isLinked : α → Bool) (name : α → String) (sel : String → Option String)
    (uiConflicts : List UIConflict) (coll0 : List α) : CleanupState α :=
  uiConflicts.foldl (choose_data_step baseName isLinked name sel) (coll0, [])

/-- Embedding of `_keep_linked_execution` (CleanUp.py 834-885): re-analyze
the collection once, then for each non-skipped conflict with a linked
item, remap every local item of that conflict onto the first linked item
and remove it. -/
def keep_linked_step {α : Type} [DecidableEq α] (isLinked : α → Bool)
    (conflicts : List (String × ConflictInfo α)) (st : CleanupState α)
    (c : UIConflict) : CleanupState α :=
  if c.skip_this_conflict then st
  else
    match conflicts.lookup c.base_name with
    | none => st
    | some info =>
      let linked_items := info.items.filter isLinked
      let local_items := info.items.filter (fun i => !isLinked i)
      match linked_items with
      | [] => st
      | target :: _ =>
        (local_items.foldl (fun l v => l.erase v) st.1,
         st.2 ++ local_items.flatMap (fun v => remapRemoveBlock v target))

def keep_linked_execution {α : Type} [DecidableEq α] (ident : α → α → Bool)
    (baseName : α → String) (isLinked : α → Bool)
    (uiConflicts : List UIConflict) (coll0 : List α) : CleanupState α :=
  let conflicts := analyze_data_conflicts_with_grouping ident baseName isLinked coll0
  uiConflicts.foldl (keep_linked_step isLinked conflicts) (coll0, [])

/-- The member loop of `_conflict_cleanup_with_grouping` (CleanUp.py
980-993): remap every member other than `rep` that is not linked. -/
def remapMembersTo {α : Type} [DecidableEq α] (isLinked : α → Bool) (rep : α)
    (members : List α) (st : CleanupState α) : CleanupState α :=
  members.foldl (fun st m =>
    if decide (m ≠ rep) && !isLinked m then
      (st.1.erase m, st.2 ++ remapRemoveBlock m rep)
    else st) st

/-- Embedding of `_conflict_cleanup_with_grouping` (CleanUp.py 936-1002)
(the `execute` fallback for a resolution value outside the three-valued
enum): for each non-skipped conflict whose selection names the
representative of one of its identity groups, remap the selected group's
members onto that representative and every other group's members onto
their own representative. -/
def conflict_cleanup_with_grouping {α : Type} [DecidableEq α] (ident : α → α → Bool)
    (baseName : α → String) (isLinked : α → Bool) (name : α → String)
    (sel : String → Option String) (uiConflicts : List UIConflict) (coll0 : List α) :
    CleanupState α :=
  let conflicts := analyze_data_conflicts_with_grouping ident baseName isLinked coll0
  uiConflicts.foldl (fun st c =>
    if c.skip_this_conflict then st
    else
      match conflicts.lookup c.base_name with
      | none => st
      | some info =>
        let selected := (sel c.base_name).getD ""
        if selected = "" then st
        else
          match info.identity_groups.find? (fun g => name g.representative == selected) with
          | none => st
          | some targetGroup =>
            info.identity_groups.foldl (fun st g =>
              if g = targetGroup then
                remapMembersTo isLinked targetGroup.representative g.members st
              else
                remapMembersTo isLinked g.representative g.members st) st) (coll0, [])

/-- The `global_resolution` enum (CleanUp.py 380-388): exactly three
resolution strategies. -/
inductive Resolution where
  | AUTO_CLEAN
  | CHOOSE_DATA
  | KEEP_LINKED
deriving DecidableEq

/-- The enum's declared default (`default='AUTO_CLEAN'`, CleanUp.py 387). -/
def global_resolution_default : Resolution := .AUTO_CLEAN

/-- Embedding of `BaseCleanupOperator.execute` (CleanUp.py 696-708): no
conflicts runs the standard cleanup; otherwise the strategy selected by
`global_resolution` runs.  (The source's final `else` branch —
`_conflict_cleanup_with_grouping` — is unreachable for the three-valued
enum.) -/
def cleanup_execute {α : Type} [DecidableEq α] (ident : α → α → Bool)
    (baseName : α → String) (isLinked : α → Bool) (name : α → String)
    (sel : String → Option String) (uiConflicts : List UIConflict)
    (has_conflicts : Bool) (resolution : Resolution) (coll0 : List α) : CleanupState α :=
  if !has_conflicts then standard_cleanup_with_grouping ident baseName isLinked coll0
  else
    match resolution with
    | .AUTO_CLEAN => auto_clean_execution ident baseName isLinked coll0
    | .CHOOSE_DATA => choose_data_execution baseName isLinked name sel uiConflicts coll0
    | .KEEP_LINKED => keep_linked_execution ident baseName isLinked uiConflicts coll0

/-! ## CleanUp.py — the per-type structural comparisons -/

/-- `sorted()` on a list of strings (`sorted([n.type for n in nodes])`). -/
def sortStrings (l : List String) : List String :=
  l.mergeSort (fun a b => a ≤ b)

/-- `sorted()` on a list of `(name, socket_type)` pairs (Python sorts
tuples lexicographically). -/
def sortPairs (l : List (String × String)) : List (String × String) :=
  l.mergeSort (fun a b =>
    decide (a.1 < b.1) || (decide (a.1 = b.1) && decide (a.2 ≤ b.2)))

/-- A material, as far as `are_materials_identical` reads it.
`node_tree` is `none` for a `None` tree, otherwise the list of its nodes'
`type` strings; `diffuse_color` is `diffuse_color[:3]`.  The float-valued
fields are only compared for equality and are modelled by `Int`. -/
structure BMaterial where
  mat_name : String
  library : Option String
  use_nodes : Bool
  node_tree : Option (List String)
  diffuse_color : Int × Int × Int
  metallic : Int
  roughness : Int
deriving DecidableEq

/-- Embedding of `is_linked_data` (CleanUp.py 51-53): the datablock's
`library` attribute is not `None`. -/
def is_linked_data (library : Option String) : Bool :=
  library.isSome

/-- Embedding of `are_materials_identical` (CleanUp.py 66-85).  The
`not mat1 or not mat2` guard is dropped: call sites pass collection
elements, never `None`. -/
def are_materials_identical (mat1 mat2 : BMaterial) : Bool :=
  if mat1.use_nodes != mat2.use_nodes then false
  else if !mat1.use_nodes then
    decide (mat1.diffuse_color = mat2.diffuse_color ∧
      mat1.metallic = mat2.metallic ∧ mat1.roughness = mat2.roughness)
  else
    match mat1.node_tree, mat2.node_tree with
    | none, none => true          -- mat1.node_tree == mat2.node_tree (both None)
    | none, some _ => false
    | some _, none => false
    | some nodes1, some nodes2 =>
      if nodes1.length != nodes2.length then false
      else decide (sortStrings nodes1 = sortStrings nodes2)

/-- A node group, as far as `are_node_groups_identical` reads it:
node types, link count, and the interface's `(name, socket_type)` input
and output sockets (the modern Blender 4.0+ `interface.items_tree` branch;
the pre-4.0 fallback reads equivalent data). -/
structure BNodeGroup where
  ng_name : String
  library : Option String
  node_types : List String
  links_count : Nat
  interface_inputs : List (String × String)
  interface_outputs : List (String × String)
deriving DecidableEq

/-- Embedding of `are_node_groups_identical` (CleanUp.py 87-166): node
count, link count, sorted interface sockets, and finally sorted node
types. -/
def are_node_groups_identical (ng1 ng2 : BNodeGroup) : Bool :=
  if ng1.node_types.length != ng2.node_types.length then false
  else if ng1.links_count != ng2.links_count then false
  else if ng1.interface_inputs.length != ng2.interface_inputs.length ||
      ng1.interface_outputs.length != ng2.interface_outputs.length then false
  else if !(decide (sortPairs ng1.interface_inputs = sortPairs ng2.interface_inputs) &&
      decide (sortPairs ng1.interface_outputs = sortPairs ng2.interface_outputs)) then false
  else decide (sortStrings ng1.node_types = sortStrings ng2.node_types)

/-- An image, as far as `are_images_identical` reads it.  `filepath` is
`""` when unset (falsy in Python); `size`/`depth`/`channels` are only
compared for equality. -/
structure BImage where
  img_name : String
  library : Option String
  filepath : String
  size : Int × Int
  depth : Int
  channels : Int
deriving DecidableEq

/-- Embedding of `are_images_identical` (CleanUp.py 168-192).  `normAbs`
abstracts `os.path.normpath(bpy.path.abspath(...))` — a host path
normalization, modelled as a total function (the `except` fallback to raw
string comparison is unreachable for a total normalization). -/
def are_images_identical (normAbs : String → String) (img1 img2 : BImage) : Bool :=
  if decide (img1.filepath = "") && decide (img2.filepath = "") then
    decide (img1.size = img2.size ∧ img1.depth = img2.depth ∧
      img1.channels = img2.channels)
  else if (decide (img1.filepath ≠ "")) != (decide (img2.filepath ≠ "")) then false
  else decide (normAbs img1.filepath = normAbs img2.filepath)

/-! ## Generic properties of the identity grouping -/

/-- Well-formedness of an identity group as `group_items_by_identity`
builds it: the representative is the first member, and every member was
identical to the representative when it was placed. -/
def GroupWF {α : Type} (ident : α → α → Bool) (g : IdentityGroup α) : Prop :=
  (∃ t, g.members = g.representative :: t) ∧
  ∀ m ∈ g.members, m = g.representative ∨ ident m g.representative = true

lemma addToFirstMatch_not_placed {α : Type} (ident : α → α → Bool) (item : α) :
    ∀ gs : List (IdentityGroup α),
      (addToFirstMatch ident item gs).2 = false → (addToFirstMatch ident item gs).1 = gs := by
  intro gs
  induction gs with
  | nil => intro _; rfl
  | cons g rest ih =>
    intro h
    by_cases hid : ident item g.representative = true
    · simp [addToFirstMatch, hid] at h
    · simp only [addToFirstMatch, hid, if_false, Bool.false_eq_true] at h ⊢
      rw [ih h]

lemma addToFirstMatch_wf {α : Type} (ident : α → α → Bool) (item : α) :
    ∀ gs : List (IdentityGroup α), (∀ g ∈ gs, GroupWF ident g) →
      ∀ g' ∈ (addToFirstMatch ident item gs).1, GroupWF ident g' := by
  intro gs
  induction gs with
  | nil => intro _ g' h; simp [addToFirstMatch] at h
  | cons g rest ih =>
    intro hwf g' hg'
    by_cases hid : ident item g.representative = true
    · simp only [addToFirstMatch, hid, if_true, List.mem_cons] at hg'
      rcases hg' with rfl | hg'
      · obtain ⟨⟨t, ht⟩, hm⟩ := hwf g (by simp)
        refine ⟨⟨t ++ [item], by simp [ht]⟩, ?_⟩
        intro m hm'
        simp only [List.mem_append, List.mem_singleton] at hm'
        rcases hm' with hm' | rfl
        · exact hm m hm'
        · exact Or.inr hid
      · exact hwf g' (List.mem_cons_of_mem _ hg')
    · have hstep : (addToFirstMatch ident item (g :: rest)).1 =
          g :: (addToFirstMatch ident item rest).1 := by
        simp [addToFirstMatch, hid]
      rw [hstep] at hg'
      rcases List.mem_cons.mp hg' with heq | hg2
      · exact heq ▸ hwf g (by simp)
      · exact ih (fun g hg => hwf g (List.mem_cons_of_mem _ hg)) g' hg2

lemma group_items_by_identity_wf {α : Type} (ident : α → α → Bool) (items : List α) :
    ∀ g ∈ group_items_by_identity ident items, GroupWF ident g := by
  suffices h : ∀ (groups : List (IdentityGroup α)), (∀ g ∈ groups, GroupWF ident g) →
      ∀ g ∈ items.foldl (fun groups item =>
        let r := addToFirstMatch ident item groups
        if r.2 then r.1 else groups ++ [⟨item, [item]⟩]) groups, GroupWF ident g by
    exact h [] (by simp)
  induction items with
  | nil => intro groups hwf g hg; exact hwf g hg
  | cons i rest ih =>
    intro groups hwf g hg
    simp only [List.foldl_cons] at hg
    refine ih _ ?_ g hg
    by_cases hp : (addToFirstMatch ident i groups).2 = true
    · simp only [hp, if_true]
      exact addToFirstMatch_wf ident i groups hwf
    · simp only [Bool.not_eq_true] at hp
      simp only [hp, Bool.false_eq_true, if_false]
      intro g' hg'
      rcases List.mem_append.mp hg' with h | h
      · exact hwf g' h
      · simp only [List.mem_singleton] at h
        subst h
        exact ⟨⟨[], rfl⟩, by simp⟩

/-- All members collected over a list of identity groups. -/
def joinMembers {α : Type} (gs : List (IdentityGroup α)) : List α :=
  gs.flatMap (fun g => g.members)

lemma addToFirstMatch_join_placed {α : Type} (ident : α → α → Bool) (item : α) :
    ∀ gs : List (IdentityGroup α), (addToFirstMatch ident item gs).2 = true →
      (joinMembers (addToFirstMatch ident item gs).1).Perm (joinMembers gs ++ [item]) := by
  intro gs
  induction gs with
  | nil => intro h; simp [addToFirstMatch] at h
  | cons g rest ih =>
    intro h
    by_cases hid : ident item g.representative = true
    · simp only [addToFirstMatch, hid, if_true]
      simp only [joinMembers, List.flatMap_cons]
      rw [List.append_assoc, List.append_assoc]
      exact List.Perm.append_left _ List.perm_append_comm
    · simp only [addToFirstMatch, hid, if_false, Bool.false_eq_true] at h ⊢
      simp only [joinMembers, List.flatMap_cons]
      have h3 := List.Perm.append_left g.members (ih h)
      simp only [joinMembers] at h3
      rw [List.append_assoc]
      exact h3

lemma group_items_by_identity_perm {α : Type} (ident : α → α → Bool) (items : List α) :
    (joinMembers (group_items_by_identity ident items)).Perm items := by
  suffices h : ∀ (groups : List (IdentityGroup α)),
      (joinMembers (items.foldl (fun groups item =>
        let r := addToFirstMatch ident item groups
        if r.2 then r.1 else groups ++ [⟨item, [item]⟩]) groups)).Perm
        (joinMembers groups ++ items) by
    have := h []
    simpa [joinMembers, group_items_by_identity] using this
  induction items with
  | nil => intro groups; simp
  | cons i rest ih =>
    intro groups
    simp only [List.foldl_cons]
    by_cases hp : (addToFirstMatch ident i groups).2 = true
    · simp only [hp, if_true]
      refine (ih _).trans ?_
      have h2 := (addToFirstMatch_join_placed ident i groups hp).append_right rest
      have heq : (joinMembers groups ++ [i]) ++ rest = joinMembers groups ++ i :: rest := by
        simp
      rw [heq] at h2
      exact h2
    · simp only [Bool.not_eq_true] at hp
      simp only [hp, Bool.false_eq_true, if_false]
      refine (ih _).trans ?_
      have hj : joinMembers (groups ++ [⟨i, [i]⟩]) = joinMembers groups ++ [i] := by
        simp [joinMembers]
      rw [hj, List.append_assoc, List.singleton_append]

/-! ## Generic properties of the base-name grouping -/

lemma upsertBase_keys {α : Type} (bn : String) (item : α) :
    ∀ acc : List (String × List α),
      (upsertBase bn item acc).map Prod.fst =
        if bn ∈ acc.map Prod.fst then acc.map Prod.fst else acc.map Prod.fst ++ [bn] := by
  intro acc
  induction acc with
  | nil => simp [upsertBase]
  | cons kv rest ih =>
    obtain ⟨k, v⟩ := kv
    by_cases hk : k = bn
    · subst hk
      simp [upsertBase]
    · simp only [upsertBase, hk, if_false, List.map_cons, List.mem_cons]
      rw [ih]
      by_cases hmem : bn ∈ rest.map Prod.fst
      · simp [hmem, Ne.symm hk]
      · simp [hmem, Ne.symm hk]

lemma upsertBase_mem {α : Type} (bn : String) (item : α) :
    ∀ (acc : List (String × List α)), (acc.map Prod.fst).Nodup →
      ∀ bg ∈ upsertBase bn item acc,
        (bg.1 ≠ bn ∧ bg ∈ acc) ∨
        (bg.1 = bn ∧ ((∃ v, (bn, v) ∈ acc ∧ bg.2 = v ++ [item]) ∨
          (bn ∉ acc.map Prod.fst ∧ bg.2 = [item]))) := by
  intro acc
  induction acc with
  | nil =>
    intro _ bg hbg
    simp only [upsertBase, List.mem_singleton] at hbg
    subst hbg
    exact Or.inr ⟨rfl, Or.inr ⟨by simp, rfl⟩⟩
  | cons kv rest ih =>
    intro hnd bg hbg
    obtain ⟨k, v⟩ := kv
    simp only [List.map_cons, List.nodup_cons] at hnd
    by_cases hk : k = bn
    · subst hk
      have hstep : upsertBase k item ((k, v) :: rest) = (k, v ++ [item]) :: rest := by
        simp [upsertBase]
      rw [hstep] at hbg
      rcases List.mem_cons.mp hbg with heq | hbg2
      · subst heq
        exact Or.inr ⟨rfl, Or.inl ⟨v, by simp⟩⟩
      · -- an entry of `rest`; its key differs from `bn` by nodup
        have hkey : bg.1 ≠ k := by
          intro h
          exact hnd.1 (h ▸ (List.mem_map.mpr ⟨bg, hbg2, rfl⟩))
        exact Or.inl ⟨hkey, List.mem_cons_of_mem _ hbg2⟩
    · simp only [upsertBase, hk, if_false, List.mem_cons] at hbg
      rcases hbg with rfl | hbg
      · exact Or.inl ⟨hk, by simp⟩
      · rcases ih hnd.2 bg hbg with ⟨hne, hmem⟩ | ⟨heq, hrest⟩
        · exact Or.inl ⟨hne, List.mem_cons_of_mem _ hmem⟩
        · refine Or.inr ⟨heq, ?_⟩
          rcases hrest with ⟨w, hw, hbg2⟩ | ⟨hnot, hbg2⟩
          · exact Or.inl ⟨w, List.mem_cons_of_mem _ hw, hbg2⟩
          · refine Or.inr ⟨?_, hbg2⟩
            simp only [List.map_cons, List.mem_cons]
            rintro (h | h)
            · exact hk h.symm
            · exact hnot h

/-- The running invariant of the base-name fold. -/
def BaseGroupsInv {α : Type} (baseName : α → String) (processed : List α)
    (acc : List (String × List α)) : Prop :=
  (acc.map Prod.fst).Nodup ∧
  (∀ bg ∈ acc, bg.2 = processed.filter (fun i => baseName i == bg.1)) ∧
  (∀ i ∈ processed, baseName i ∈ acc.map Prod.fst)

lemma baseGroupsInv_step {α : Type} (baseName : α → String) (processed : List α)
    (acc : List (String × List α)) (item : α) (h : BaseGroupsInv baseName processed acc) :
    BaseGroupsInv baseName (processed ++ [item]) (upsertBase (baseName item) item acc) := by
  obtain ⟨hnd, hval, hkeys⟩ := h
  refine ⟨?_, ?_, ?_⟩
  · rw [upsertBase_keys]
    by_cases hmem : baseName item ∈ acc.map Prod.fst
    · simp [hmem, hnd]
    · simp only [hmem, if_false]
      exact List.Nodup.append hnd (by simp) (by simp [hmem, List.disjoint_singleton])
  · intro bg hbg
    rcases upsertBase_mem (baseName item) item acc hnd bg hbg with
      ⟨hne, hmem⟩ | ⟨heq, hrest⟩
    · rw [hval bg hmem, List.filter_append]
      have : (baseName item == bg.1) = false := beq_eq_false_iff_ne.mpr (Ne.symm hne)
      simp [this]
    · rcases hrest with ⟨v, hv, hbg2⟩ | ⟨hnot, hbg2⟩
      · have := hval (baseName item, v) hv
        simp only at this
        rw [hbg2, this, List.filter_append, heq]
        simp
      · rw [hbg2, List.filter_append, heq]
        have hempty : processed.filter (fun i => baseName i == baseName item) = [] := by
          rw [List.filter_eq_nil_iff]
          intro i hi
          simp only [beq_iff_eq]
          intro hcontra
          exact hnot (hcontra ▸ hkeys i hi)
        simp [hempty]
  · intro i hi
    rw [upsertBase_keys]
    rcases List.mem_append.mp hi with hi | hi
    · by_cases hmem : baseName item ∈ acc.map Prod.fst
      · simp only [hmem, if_true]
        exact hkeys i hi
      · simp only [hmem, if_false, List.mem_append]
        exact Or.inl (hkeys i hi)
    · simp only [List.mem_singleton] at hi
      subst hi
      by_cases hmem : baseName i ∈ acc.map Prod.fst
      · simp [hmem]
      · simp [hmem]

lemma base_name_groups_spec {α : Type} (baseName : α → String) (items : List α) :
    ((base_name_groups baseName items).map Prod.fst).Nodup ∧
    ∀ bg ∈ base_name_groups baseName items,
      bg.2 = items.filter (fun i => baseName i == bg.1) := by
  suffices h : ∀ (rest processed : List α) (acc : List (String × List α)),
      BaseGroupsInv baseName processed acc →
      BaseGroupsInv baseName (processed ++ rest)
        (rest.foldl (fun acc item => upsertBase (baseName item) item acc) acc) by
    have h0 : BaseGroupsInv baseName ([] : List α) [] := ⟨by simp, by simp, by simp⟩
    have := h items [] [] h0
    simp only [List.nil_append] at this
    exact ⟨this.1, this.2.1⟩
  intro rest
  induction rest with
  | nil => intro processed acc h; simpa using h
  | cons i tl ih =>
    intro processed acc h
    simp only [List.foldl_cons]
    have := ih (processed ++ [i]) _ (baseGroupsInv_step baseName processed acc i h)
    simpa [List.append_assoc] using this

lemma lookup_mem {α : Type} : ∀ (l : List (String × α)) (k : String) (v : α),
    l.lookup k = some v → (k, v) ∈ l := by
  intro l
  induction l with
  | nil => intro k v h; simp [List.lookup] at h
  | cons kv rest ih =>
    intro k v h
    obtain ⟨k', v'⟩ := kv
    by_cases hk : k = k'
    · subst hk
      simp only [List.lookup, beq_self_eq_true] at h
      injection h with h
      subst h
      simp
    · have : (k == k') = false := beq_eq_false_iff_ne.mpr hk
      simp only [List.lookup, this] at h
      exact List.mem_cons_of_mem _ (ih k v h)

/-- What membership in the conflict analysis gives: the conflict's items
are exactly the collection's items of that base name (in order), there are
at least two of them, the local/linked split filters them, and the
identity groups are `group_items_by_identity` of them. -/
lemma analyze_mem {α : Type} (ident : α → α → Bool) (baseName : α → String)
    (isLinked : α → Bool) (items : List α) :
    ∀ bi ∈ analyze_data_conflicts_with_grouping ident baseName isLinked items,
      bi.2.items = items.filter (fun i => baseName i == bi.1) ∧
      2 ≤ bi.2.items.length ∧
      bi.2.local_items = bi.2.items.filter (fun i => !isLinked i) ∧
      bi.2.linked_items = bi.2.items.filter (fun i => isLinked i) ∧
      bi.2.identity_groups = group_items_by_identity ident bi.2.items := by
  intro bi hbi
  simp only [analyze_data_conflicts_with_grouping, List.mem_filterMap] at hbi
  obtain ⟨bg, hbg, hsome⟩ := hbi
  by_cases hlen : bg.2.length ≤ 1
  · simp [hlen] at hsome
  · simp only [hlen, if_false] at hsome
    injection hsome with hsome
    subst hsome
    have hfil := (base_name_groups_spec baseName items).2 bg hbg
    exact ⟨hfil, (show 2 ≤ bg.2.length by omega), rfl, rfl, rfl⟩

lemma filterMap_keys_sublist {β γ δ : Type} (key1 : β → δ) (key2 : γ → δ)
    (f : β → Option γ) (hf : ∀ b c, f b = some c → key2 c = key1 b) :
    ∀ l : List β, ((l.filterMap f).map key2).Sublist (l.map key1) := by
  intro l
  induction l with
  | nil => simp
  | cons b rest ih =>
    simp only [List.filterMap_cons]
    cases hfb : f b with
    | none =>
      simp only [List.map_cons]
      exact List.Sublist.cons _ ih
    | some c =>
      simp only [List.map_cons, hf b c hfb]
      exact List.Sublist.cons₂ _ ih

/-- The analysis keys are a sublist of the base-name keys, hence nodup. -/
lemma analyze_keys_nodup {α : Type} (ident : α → α → Bool) (baseName : α → String)
    (isLinked : α → Bool) (items : List α) :
    (((analyze_data_conflicts_with_grouping ident baseName isLinked items).map
      Prod.fst)).Nodup := by
  unfold analyze_data_conflicts_with_grouping
  refine List.Nodup.sublist
    (filterMap_keys_sublist Prod.fst Prod.fst _ ?_ (base_name_groups baseName items))
    ((base_name_groups_spec baseName items).1)
  intro b c h
  by_cases hl : b.2.length ≤ 1
  · simp [hl] at h
  · simp only [hl, if_false] at h
    injection h with h
    rw [← h]

/-! ## Claim C2 — spec-side comparison relations (from the claim's words) -/

/-- Spec-side: materials compared by node count and sorted node types, or
by diffuse color, metallic and roughness when not using nodes. -/
def materials_identical_spec (m1 m2 : BMaterial) : Bool :=
  if m1.use_nodes && m2.use_nodes then
    decide ((m1.node_tree.getD []).length = (m2.node_tree.getD []).length) &&
    decide (sortStrings (m1.node_tree.getD []) = sortStrings (m2.node_tree.getD []))
  else if !m1.use_nodes && !m2.use_nodes then
    decide (m1.diffuse_color = m2.diffuse_color ∧ m1.metallic = m2.metallic ∧
      m1.roughness = m2.roughness)
  else false

/-- Spec-side: node groups compared by node count, link count and
interface sockets. -/
def node_groups_identical_spec (g1 g2 : BNodeGroup) : Bool :=
  decide (g1.node_types.length = g2.node_types.length) &&
  decide (g1.links_count = g2.links_count) &&
  decide (sortPairs g1.interface_inputs = sortPairs g2.interface_inputs) &&
  decide (sortPairs g1.interface_outputs = sortPairs g2.interface_outputs)

/-- Spec-side: images compared by normalized absolute file path, or by
size, depth and channels for images with no file path. -/
def images_identical_spec (normAbs : String → String) (i1 i2 : BImage) : Bool :=
  if decide (i1.filepath ≠ "") && decide (i2.filepath ≠ "") then
    decide (normAbs i1.filepath = normAbs i2.filepath)
  else if decide (i1.filepath = "") && decide (i2.filepath = "") then
    decide (i1.size = i2.size ∧ i1.depth = i2.depth ∧ i1.channels = i2.channels)
  else false

lemma are_materials_identical_implies_spec (m1 m2 : BMaterial)
    (h : are_materials_identical m1 m2 = true) :
    materials_identical_spec m1 m2 = true := by
  unfold are_materials_identical at h
  unfold materials_identical_spec
  by_cases hun : m1.use_nodes = m2.use_nodes
  · rcases hb : m1.use_nodes with _ | _
    · have hb2 : m2.use_nodes = false := hun ▸ hb
      simp only [hb, hb2, bne_self_eq_false, Bool.false_eq_true, if_false,
        Bool.not_false, if_true, Bool.false_and] at h ⊢
      simpa using h
    · have hb2 : m2.use_nodes = true := hun ▸ hb
      simp only [hb, hb2, bne_self_eq_false, Bool.false_eq_true, if_false,
        Bool.not_true, Bool.true_and, if_true] at h ⊢
      cases ht1 : m1.node_tree with
      | none =>
        cases ht2 : m2.node_tree with
        | none => simp
        | some n2 => simp [ht1, ht2] at h
      | some n1 =>
        cases ht2 : m2.node_tree with
        | none => simp [ht1, ht2] at h
        | some n2 =>
          simp only [ht1, ht2] at h
          by_cases hl : n1.length = n2.length
          · simp only [Option.getD_some]
            have hs : sortStrings n1 = sortStrings n2 := by
              by_cases hss : sortStrings n1 = sortStrings n2
              · exact hss
              · simp [hl, hss] at h
            simp [hl, hs]
          · simp [hl] at h
  · rcases hb : m1.use_nodes with _ | _ <;> rcases hb2 : m2.use_nodes with _ | _ <;>
      simp_all

lemma are_node_groups_identical_implies_spec (g1 g2 : BNodeGroup)
    (h : are_node_groups_identical g1 g2 = true) :
    node_groups_identical_spec g1 g2 = true := by
  unfold are_node_groups_identical at h
  unfold node_groups_identical_spec
  by_cases h1 : g1.node_types.length = g2.node_types.length
  · by_cases h2 : g1.links_count = g2.links_count
    · by_cases h3 : sortPairs g1.interface_inputs = sortPairs g2.interface_inputs
      · by_cases h4 : sortPairs g1.interface_outputs = sortPairs g2.interface_outputs
        · simp [h1, h2, h3, h4]
        · simp [h1, h2, h3, h4] at h
      · simp [h1, h2, h3] at h
    · simp [h1, h2] at h
  · simp [h1] at h

lemma are_images_identical_implies_spec (normAbs : String → String) (i1 i2 : BImage)
    (h : are_images_identical normAbs i1 i2 = true) :
    images_identical_spec normAbs i1 i2 = true := by
  unfold are_images_identical at h
  unfold images_identical_spec
  by_cases h1 : i1.filepath = ""
  · by_cases h2 : i2.filepath = ""
    · simp only [h1, h2] at h ⊢
      simpa using h
    · simp [h1, h2] at h
  · by_cases h2 : i2.filepath = ""
    · simp [h1, h2] at h
    · simp [h1, h2] at h ⊢
      exact h

lemma materials_identical_spec_refl (m : BMaterial) :
    materials_identical_spec m m = true := by
  unfold materials_identical_spec
  rcases hb : m.use_nodes with _ | _ <;> simp [hb]

lemma node_groups_identical_spec_refl (g : BNodeGroup) :
    node_groups_identical_spec g g = true := by
  simp [node_groups_identical_spec]

lemma images_identical_spec_refl (normAbs : String → String) (i : BImage) :
    images_identical_spec normAbs i i = true := by
  unfold images_identical_spec
  by_cases h : i.filepath = "" <;> simp [h]

/-- Generic core of claim C2: every conflict the analysis reports consists
of exactly the same-base-name items (two or more), its identity groups
partition those items, and every member of a group satisfies the spec-side
comparison with the group's representative. -/
lemma analyze_grouping_spec {α : Type} (ident specIdent : α → α → Bool)
    (baseName : α → String) (isLinked : α → Bool)
    (himp : ∀ a b, ident a b = true → specIdent a b = true)
    (hrefl : ∀ a, specIdent a a = true) (items : List α) :
    ∀ bi ∈ analyze_data_conflicts_with_grouping ident baseName isLinked items,
      bi.2.items = items.filter (fun i => baseName i == bi.1) ∧
      2 ≤ bi.2.items.length ∧
      (joinMembers bi.2.identity_groups).Perm bi.2.items ∧
      ∀ g ∈ bi.2.identity_groups, ∀ m ∈ g.members,
        specIdent m g.representative = true := by
  intro bi hbi
  obtain ⟨hitems, hlen, _, _, higroups⟩ :=
    analyze_mem ident baseName isLinked items bi hbi
  refine ⟨hitems, hlen, ?_, ?_⟩
  · rw [higroups]
    exact group_items_by_identity_perm ident bi.2.items
  · intro g hg m hm
    rw [higroups] at hg
    obtain ⟨_, hmem⟩ := group_items_by_identity_wf ident bi.2.items g hg
    rcases hmem m hm with rfl | hid
    · exact hrefl _
    · exact himp _ _ hid

/-- Base name and linkedness of a material datablock. -/
def matBaseName (m : BMaterial) : String := get_base_name_str m.mat_name

def matIsLinked (m : BMaterial) : Bool := is_linked_data m.library

/-- Base name and linkedness of a node-group datablock. -/
def ngBaseName (g : BNodeGroup) : String := get_base_name_str g.ng_name

def ngIsLinked (g : BNodeGroup) : Bool := is_linked_data g.library

/-- Base name and linkedness of an image datablock. -/
def imgBaseName (i : BImage) : String := get_base_name_str i.img_name

def imgIsLinked (i : BImage) : Bool := is_linked_data i.library

/-- Claim C2: conflict analysis partitions each data collection by base
name (via `get_base_name`); within every base-name group of two or more
items it partitions the items into identity groups whose members are all
structurally identical to the group's representative under the per-type
comparison — materials by node count and sorted node types (or diffuse
color, metallic, roughness when not using nodes), node groups by node
count, link count and interface sockets, images by normalized absolute
file path (or size, depth, channels without one). -/
theorem C2_conflict_analysis_identity_grouping :
    (∀ (items : List BMaterial) bi,
      bi ∈ analyze_data_conflicts_with_grouping are_materials_identical
          matBaseName matIsLinked items →
        bi.2.items = items.filter (fun i => matBaseName i == bi.1) ∧
        2 ≤ bi.2.items.length ∧
        (joinMembers bi.2.identity_groups).Perm bi.2.items ∧
        ∀ g ∈ bi.2.identity_groups, ∀ m ∈ g.members,
          materials_identical_spec m g.representative = true) ∧
    (∀ (items : List BNodeGroup) bi,
      bi ∈ analyze_data_conflicts_with_grouping are_node_groups_identical
          ngBaseName ngIsLinked items →
        bi.2.items = items.filter (fun i => ngBaseName i == bi.1) ∧
        2 ≤ bi.2.items.length ∧
        (joinMembers bi.2.identity_groups).Perm bi.2.items ∧
        ∀ g ∈ bi.2.identity_groups, ∀ m ∈ g.members,
          node_groups_identical_spec m g.representative = true) ∧
    (∀ (normAbs : String → String) (items : List BImage) bi,
      bi ∈ analyze_data_conflicts_with_grouping (are_images_identical normAbs)
          imgBaseName imgIsLinked items →
        bi.2.items = items.filter (fun i => imgBaseName i == bi.1) ∧
        2 ≤ bi.2.items.length ∧
        (joinMembers bi.2.identity_groups).Perm bi.2.items ∧
        ∀ g ∈ bi.2.identity_groups, ∀ m ∈ g.members,
          images_identical_spec normAbs m g.representative = true) := by
  refine ⟨fun items => ?_, fun items => ?_, fun normAbs items => ?_⟩
  · exact analyze_grouping_spec are_materials_identical materials_identical_spec
      matBaseName matIsLinked are_materials_identical_implies_spec
      materials_identical_spec_refl items
  · exact analyze_grouping_spec are_node_groups_identical node_groups_identical_spec
      ngBaseName ngIsLinked are_node_groups_identical_implies_spec
      node_groups_identical_spec_refl items
  · exact analyze_grouping_spec (are_images_identical normAbs)
      (images_identical_spec normAbs) imgBaseName imgIsLinked
      (are_images_identical_implies_spec normAbs)
      (images_identical_spec_refl normAbs) items

def c2mat1 : BMaterial := ⟨"Mat", none, false, none, (1, 0, 0), 0, 5⟩

def c2mat2 : BMaterial := ⟨"Mat.001", none, false, none, (1, 0, 0), 0, 5⟩

def c2conflict : String × ConflictInfo BMaterial :=
  ("Mat", ⟨[c2mat1, c2mat2], [c2mat1, c2mat2], [], ["Local Duplicates"],
    [⟨c2mat1, [c2mat1, c2mat2]⟩]⟩)

/-- Closed witness for the C2 theorem: two materials `Mat` / `Mat.001`
with equal flat colors form one conflict with one identity group. -/
theorem C2_conflict_analysis_identity_grouping_witness :
    c2conflict.2.items = [c2mat1, c2mat2].filter (fun i => matBaseName i == c2conflict.1) ∧
    2 ≤ c2conflict.2.items.length ∧
    (joinMembers c2conflict.2.identity_groups).Perm c2conflict.2.items ∧
    ∀ g ∈ c2conflict.2.identity_groups, ∀ m ∈ g.members,
      materials_identical_spec m g.representative = true :=
  C2_conflict_analysis_identity_grouping.1 [c2mat1, c2mat2] c2conflict (by decide)

/-! ## Claim C8 — linked datablocks survive every cleanup -/

lemma erase_filter_of_false {α : Type} [DecidableEq α] (p : α → Bool) (v : α)
    (hv : p v = false) : ∀ l : List α, (l.erase v).filter p = l.filter p := by
  intro l
  induction l with
  | nil => rfl
  | cons a t ih =>
    by_cases ha : a = v
    · subst ha
      rw [List.erase_cons_head]
      simp [List.filter_cons, hv]
    · have : (a == v) = false := beq_eq_false_iff_ne.mpr ha
      rw [List.erase_cons, this]
      simp only [Bool.false_eq_true, if_false, List.filter_cons, ih]

lemma eraseFold_filter {α : Type} [DecidableEq α] (p : α → Bool) :
    ∀ (vs : List α), (∀ v ∈ vs, p v = false) →
      ∀ l : List α, ((vs.foldl (fun l v => l.erase v) l).filter p = l.filter p) := by
  intro vs
  induction vs with
  | nil => intro _ l; rfl
  | cons v tl ih =>
    intro hvs l
    simp only [List.foldl_cons]
    rw [ih (fun w hw => hvs w (List.mem_cons_of_mem _ hw)) (l.erase v),
      erase_filter_of_false p v (hvs v (by simp)) l]

/-- The claim-C8 invariant of an execution state: no removal event names a
linked datablock, and the linked items of the collection are exactly those
of the initial collection. -/
def LinkedPreserved {α : Type} (isLinked : α → Bool) (coll0 : List α)
    (st : CleanupState α) : Prop :=
  (∀ o, CleanupEvent.removed o ∈ st.2 → isLinked o = false) ∧
  st.1.filter isLinked = coll0.filter isLinked

lemma linkedPreserved_block {α : Type} [DecidableEq α] (isLinked : α → Bool)
    (coll0 : List α) (st : CleanupState α) (m rep : α) (hm : isLinked m = false)
    (h : LinkedPreserved isLinked coll0 st) :
    LinkedPreserved isLinked coll0 (st.1.erase m, st.2 ++ remapRemoveBlock m rep) := by
  obtain ⟨hrem, hfil⟩ := h
  constructor
  · intro o ho
    rcases List.mem_append.mp ho with ho | ho
    · exact hrem o ho
    · simp only [remapRemoveBlock, List.mem_cons] at ho
      rcases ho with ho | ho | ho
      · exact CleanupEvent.noConfusion ho
      · injection ho with ho
        exact ho ▸ hm
      · exact absurd ho (List.not_mem_nil _)
  · rw [erase_filter_of_false isLinked m hm, hfil]

lemma processGroupMembers_linkedPreserved {α : Type} [DecidableEq α]
    (isLinked : α → Bool) (coll0 : List α) (rep : α) :
    ∀ (members : List α) (st : CleanupState α),
      LinkedPreserved isLinked coll0 st →
      LinkedPreserved isLinked coll0 (processGroupMembers isLinked rep members st) := by
  intro members
  induction members with
  | nil => intro st h; exact h
  | cons m tl ih =>
    intro st h
    simp only [processGroupMembers, List.foldl_cons]
    by_cases hrep : m = rep
    · simp only [hrep, if_pos rfl]
      exact ih st h
    · simp only [hrep, if_false]
      by_cases hl : isLinked m = true
      · simp only [hl, if_true]
        exact ih st h
      · simp only [hl, Bool.false_eq_true, if_false]
        refine ih _ ?_
        exact linkedPreserved_block isLinked coll0 st m rep
          (Bool.not_eq_true _ ▸ (by simpa using hl)) h

lemma processIdentityGroups_linkedPreserved {α : Type} [DecidableEq α]
    (isLinked : α → Bool) (coll0 : List α) :
    ∀ (igroups : List (IdentityGroup α)) (st : CleanupState α),
      LinkedPreserved isLinked coll0 st →
      LinkedPreserved isLinked coll0 (processIdentityGroups isLinked igroups st) := by
  intro igroups
  induction igroups with
  | nil => intro st h; exact h
  | cons g tl ih =>
    intro st h
    simp only [processIdentityGroups, List.foldl_cons]
    by_cases hlen : g.members.length ≤ 1
    · simp only [hlen, if_pos]
      exact ih st h
    · simp only [hlen, if_false]
      cases chooseRepresentative isLinked g.members with
      | none => exact ih st h
      | some rep =>
        exact ih _ (processGroupMembers_linkedPreserved isLinked coll0 rep g.members st h)

lemma foldl_preserved {σ β : Type} (P : σ → Prop) (f : σ → β → σ)
    (hf : ∀ s b, P s → P (f s b)) :
    ∀ (l : List β) (s : σ), P s → P (l.foldl f s) := by
  intro l
  induction l with
  | nil => intro s h; exact h
  | cons b tl ih => intro s h; exact ih (f s b) (hf s b h)

lemma linkedPreserved_batch {α : Type} [DecidableEq α] (isLinked : α → Bool)
    (coll0 : List α) (st : CleanupState α) (victims : List α) (target : α)
    (hv : ∀ v ∈ victims, isLinked v = false)
    (h : LinkedPreserved isLinked coll0 st) :
    LinkedPreserved isLinked coll0
      (victims.foldl (fun l v => l.erase v) st.1,
       st.2 ++ victims.flatMap (fun v => remapRemoveBlock v target)) := by
  obtain ⟨hrem, hfil⟩ := h
  constructor
  · intro o ho
    rcases List.mem_append.mp ho with ho | ho
    · exact hrem o ho
    · obtain ⟨v, hvmem, ho⟩ := List.mem_flatMap.mp ho
      simp only [remapRemoveBlock, List.mem_cons] at ho
      rcases ho with ho | ho | ho
      · exact CleanupEvent.noConfusion ho
      · injection ho with ho
        exact ho ▸ hv v hvmem
      · exact absurd ho (List.not_mem_nil _)
  · rw [eraseFold_filter isLinked victims hv st.1, hfil]

lemma remapMembersTo_linkedPreserved {α : Type} [DecidableEq α]
    (isLinked : α → Bool) (coll0 : List α) (rep : α) :
    ∀ (members : List α) (st : CleanupState α),
      LinkedPreserved isLinked coll0 st →
      LinkedPreserved isLinked coll0 (remapMembersTo isLinked rep members st) := by
  intro members
  induction members with
  | nil => intro st h; exact h
  | cons m tl ih =>
    intro st h
    simp only [remapMembersTo, List.foldl_cons]
    by_cases hc : (decide (m ≠ rep) && !isLinked m) = true
    · simp only [hc, if_true]
      refine ih _ ?_
      have hm : isLinked m = false := by
        have := (Bool.and_eq_true_iff.mp hc).2
        simpa using this
      exact linkedPreserved_block isLinked coll0 st m rep hm h
    · simp only [hc, Bool.false_eq_true, if_false]
      exact ih st h

/-- Claim C8 for `_auto_clean_execution`. -/
lemma auto_clean_linkedPreserved {α : Type} [DecidableEq α] (ident : α → α → Bool)
    (baseName : α → String) (isLinked : α → Bool) (coll0 : List α) :
    LinkedPreserved isLinked coll0
      (auto_clean_execution ident baseName isLinked coll0) := by
  unfold auto_clean_execution
  refine foldl_preserved (LinkedPreserved isLinked coll0) _ ?_ _ _ ⟨by simp, rfl⟩
  intro s bnInfo h
  dsimp only
  split
  · exact h
  · split
    · exact h
    · exact processIdentityGroups_linkedPreserved isLinked coll0 _ s h

/-- Claim C8 for `_standard_cleanup_with_grouping`. -/
lemma standard_cleanup_linkedPreserved {α : Type} [DecidableEq α] (ident : α → α → Bool)
    (baseName : α → String) (isLinked : α → Bool) (coll0 : List α) :
    LinkedPreserved isLinked coll0
      (standard_cleanup_with_grouping ident baseName isLinked coll0) := by
  unfold standard_cleanup_with_grouping
  refine foldl_preserved (LinkedPreserved isLinked coll0) _ ?_ _ _ ⟨by simp, rfl⟩
  intro s bg h
  dsimp only
  split
  · exact h
  · exact processIdentityGroups_linkedPreserved isLinked coll0 _ s h

/-- Claim C8 for `_choose_data_execution`. -/
lemma choose_data_linkedPreserved {α : Type} [DecidableEq α] (baseName : α → String)
    (isLinked : α → Bool) (name : α → String) (sel : String → Option String)
    (uiConflicts : List UIConflict) (coll0 : List α) :
    LinkedPreserved isLinked coll0
      (choose_data_execution baseName isLinked name sel uiConflicts coll0) := by
  unfold choose_data_execution
  refine foldl_preserved (LinkedPreserved isLinked coll0) _ ?_ _ _ ⟨by simp, rfl⟩
  intro s c h
  unfold choose_data_step
  dsimp only
  split
  · exact h
  · split
    · exact h
    · split
      · exact h
      · split
        · exact h
        · rename_i target _
          refine linkedPreserved_batch isLinked coll0 s _ target ?_ h
          intro v hv
          have := List.of_mem_filter hv
          simpa using (Bool.and_eq_true_iff.mp this).2

/-- Claim C8 for `_keep_linked_execution`. -/
lemma keep_linked_linkedPreserved {α : Type} [DecidableEq α] (ident : α → α → Bool)
    (baseName : α → String) (isLinked : α → Bool)
    (uiConflicts : List UIConflict) (coll0 : List α) :
    LinkedPreserved isLinked coll0
      (keep_linked_execution ident baseName isLinked uiConflicts coll0) := by
  unfold keep_linked_execution
  refine foldl_preserved (LinkedPreserved isLinked coll0) _ ?_ _ _ ⟨by simp, rfl⟩
  intro s c h
  unfold keep_linked_step
  dsimp only
  split
  · exact h
  · split
    · exact h
    · rename_i info _
      split
      · exact h
      · rename_i target _ _
        refine linkedPreserved_batch isLinked coll0 s _ target ?_ h
        intro v hv
        have := List.of_mem_filter hv
        simpa using this

/-- Claim C8 for `_conflict_cleanup_with_grouping`. -/
lemma conflict_cleanup_linkedPreserved {α : Type} [DecidableEq α] (ident : α → α → Bool)
    (baseName : α → String) (isLinked : α → Bool) (name : α → String)
    (sel : String → Option String) (uiConflicts : List UIConflict) (coll0 : List α) :
    LinkedPreserved isLinked coll0
      (conflict_cleanup_with_grouping ident baseName isLinked name sel uiConflicts coll0) := by
  unfold conflict_cleanup_with_grouping
  refine foldl_preserved (LinkedPreserved isLinked coll0) _ ?_ _ _ ⟨by simp, rfl⟩
  intro s c h
  dsimp only
  split
  · exact h
  · split
    · exact h
    · split
      · exact h
      · split
        · exact h
        · refine foldl_preserved (LinkedPreserved isLinked coll0) _ ?_ _ _ h
          intro s' g h'
          dsimp only
          split
          · exact remapMembersTo_linkedPreserved isLinked coll0 _ _ s' h'
          · exact remapMembersTo_linkedPreserved isLinked coll0 _ _ s' h'

/-- Claim C8: no cleanup resolution strategy ever removes a linked
datablock — in every execution path (`AUTO_CLEAN`, `CHOOSE_DATA`,
`KEEP_LINKED`, the standard cleanup and the conflict-cleanup fallback)
every removal event names a non-linked item, and the linked items of the
collection are preserved exactly. -/
theorem C8_no_strategy_removes_linked :
    ∀ {α : Type} [inst : DecidableEq α] (ident : α → α → Bool) (baseName : α → String)
      (isLinked : α → Bool) (name : α → String) (sel : String → Option String)
      (uiConflicts : List UIConflict) (coll0 : List α),
      LinkedPreserved isLinked coll0
        (auto_clean_execution ident baseName isLinked coll0) ∧
      LinkedPreserved isLinked coll0
        (choose_data_execution baseName isLinked name sel uiConflicts coll0) ∧
      LinkedPreserved isLinked coll0
        (keep_linked_execution ident baseName isLinked uiConflicts coll0) ∧
      LinkedPreserved isLinked coll0
        (standard_cleanup_with_grouping ident baseName isLinked coll0) ∧
      LinkedPreserved isLinked coll0
        (conflict_cleanup_with_grouping ident baseName isLinked name sel uiConflicts coll0) :=
  fun ident baseName isLinked name sel uiConflicts coll0 =>
    ⟨auto_clean_linkedPreserved ident baseName isLinked coll0,
     choose_data_linkedPreserved baseName isLinked name sel uiConflicts coll0,
     keep_linked_linkedPreserved ident baseName isLinked uiConflicts coll0,
     standard_cleanup_linkedPreserved ident baseName isLinked coll0,
     conflict_cleanup_linkedPreserved ident baseName isLinked name sel uiConflicts coll0⟩

def c8local1 : BMaterial := ⟨"Mat", none, false, none, (1, 0, 0), 0, 5⟩

def c8local2 : BMaterial := ⟨"Mat.001", none, false, none, (1, 0, 0), 0, 5⟩

def c8linked : BMaterial := ⟨"Mat.002", some "lib.blend", false, none, (1, 0, 0), 0, 5⟩

/-- Closed witness for the C8 theorem: auto-clean on a collection with a
local pair and a linked duplicate removes only the local duplicate
(which is indeed non-linked) and keeps the linked items intact. -/
theorem C8_no_strategy_removes_linked_witness :
    matIsLinked c8local2 = false ∧
    (auto_clean_execution are_materials_identical matBaseName matIsLinked
      [c8local1, c8local2, c8linked]).1.filter matIsLinked =
      [c8local1, c8local2, c8linked].filter matIsLinked :=
  ⟨(C8_no_strategy_removes_linked are_materials_identical matBaseName matIsLinked
      (fun m => m.mat_name) (fun _ => none) [] [c8local1, c8local2, c8linked]).1.1
      c8local2 (by decide),
   (C8_no_strategy_removes_linked are_materials_identical matBaseName matIsLinked
      (fun m => m.mat_name) (fun _ => none) [] [c8local1, c8local2, c8linked]).1.2⟩

/-! ## Claim C1 — every removal is preceded by a remap of the same datablock -/

/-- Traces an execution can produce: a sequence of
`[remap m rep, removed m]` blocks. -/
inductive PairedTrace {α : Type} : List (CleanupEvent α) → Prop where
  | nil : PairedTrace []
  | snoc (tr : List (CleanupEvent α)) (m rep : α) :
      PairedTrace tr → PairedTrace (tr ++ remapRemoveBlock m rep)

/-- The claim-C1 ordering property: every `removed` event is preceded by a
`remap` of the same datablock. -/
def removePrecededByRemap {α : Type} (tr : List (CleanupEvent α)) : Prop :=
  ∀ i o, tr.get? i = some (.removed o) →
    ∃ j k, j < i ∧ tr.get? j = some (.remap o k)

lemma pairedTrace_batch {α : Type} (target : α) :
    ∀ (vs : List α) (tr : List (CleanupEvent α)), PairedTrace tr →
      PairedTrace (tr ++ vs.flatMap (fun v => remapRemoveBlock v target)) := by
  intro vs
  induction vs with
  | nil => intro tr h; simpa using h
  | cons v tl ih =>
    intro tr h
    have h1 : PairedTrace (tr ++ remapRemoveBlock v target) := PairedTrace.snoc tr v target h
    have h2 := ih (tr ++ remapRemoveBlock v target) h1
    simpa [List.append_assoc] using h2

lemma pairedTrace_ordered {α : Type} {tr : List (CleanupEvent α)} (h : PairedTrace tr) :
    removePrecededByRemap tr := by
  induction h with
  | nil => intro i o hi; simp at hi
  | snoc tr m rep hp ih =>
    intro i o hi
    by_cases hlt : i < tr.length
    · rw [List.get?_append hlt] at hi
      obtain ⟨j, k, hj, hjk⟩ := ih i o hi
      exact ⟨j, k, hj, by rw [List.get?_append (lt_trans hj hlt)]; exact hjk⟩
    · push_neg at hlt
      rw [List.get?_append_right hlt] at hi
      have hcases : i - tr.length = 0 ∨ i - tr.length = 1 ∨ 2 ≤ i - tr.length := by omega
      rcases hcases with hc | hc | hc
      · rw [hc] at hi
        simp [remapRemoveBlock] at hi
      · rw [hc] at hi
        simp only [remapRemoveBlock, List.get?_cons_succ, List.get?_cons_zero] at hi
        injection hi with hi
        injection hi with hi
        refine ⟨tr.length, rep, by omega, ?_⟩
        rw [List.get?_append_right (le_refl _)]
        simp [remapRemoveBlock, hi]
      · rw [show i - tr.length = (i - tr.length - 2) + 2 by omega] at hi
        simp [remapRemoveBlock] at hi

/-- The trace component of the state invariant. -/
def TraceIsPaired {α : Type} (st : CleanupState α) : Prop := PairedTrace st.2

lemma processGroupMembers_paired {α : Type} [DecidableEq α]
    (isLinked : α → Bool) (rep : α) :
    ∀ (members : List α) (st : CleanupState α), TraceIsPaired st →
      TraceIsPaired (processGroupMembers isLinked rep members st) := by
  intro members
  induction members with
  | nil => intro st h; exact h
  | cons m tl ih =>
    intro st h
    simp only [processGroupMembers, List.foldl_cons]
    by_cases hrep : m = rep
    · simp only [hrep, if_pos rfl]; exact ih st h
    · simp only [hrep, if_false]
      by_cases hl : isLinked m = true
      · simp only [hl, if_true]; exact ih st h
      · simp only [hl, Bool.false_eq_true, if_false]
        exact ih _ (PairedTrace.snoc st.2 m rep h)

lemma processIdentityGroups_paired {α : Type} [DecidableEq α] (isLinked : α → Bool) :
    ∀ (igroups : List (IdentityGroup α)) (st : CleanupState α), TraceIsPaired st →
      TraceIsPaired (processIdentityGroups isLinked igroups st) := by
  intro igroups
  induction igroups with
  | nil => intro st h; exact h
  | cons g tl ih =>
    intro st h
    simp only [processIdentityGroups, List.foldl_cons]
    by_cases hlen : g.members.length ≤ 1
    · simp only [hlen, if_pos]; exact ih st h
    · simp only [hlen, if_false]
      cases chooseRepresentative isLinked g.members with
      | none => exact ih st h
      | some rep => exact ih _ (processGroupMembers_paired isLinked rep g.members st h)

lemma remapMembersTo_paired {α : Type} [DecidableEq α] (isLinked : α → Bool) (rep : α) :
    ∀ (members : List α) (st : CleanupState α), TraceIsPaired st →
      TraceIsPaired (remapMembersTo isLinked rep members st) := by
  intro members
  induction members with
  | nil => intro st h; exact h
  | cons m tl ih =>
    intro st h
    simp only [remapMembersTo, List.foldl_cons]
    by_cases hc : (decide (m ≠ rep) && !isLinked m) = true
    · simp only [hc, if_true]
      exact ih _ (PairedTrace.snoc st.2 m rep h)
    · simp only [hc, Bool.false_eq_true, if_false]
      exact ih st h

lemma auto_clean_paired {α : Type} [DecidableEq α] (ident : α → α → Bool)
    (baseName : α → String) (isLinked : α → Bool) (coll0 : List α) :
    TraceIsPaired (auto_clean_execution ident baseName isLinked coll0) := by
  unfold auto_clean_execution
  refine foldl_preserved TraceIsPaired _ ?_ _ _ PairedTrace.nil
  intro s bnInfo h
  dsimp only
  split
  · exact h
  · split
    · exact h
    · exact processIdentityGroups_paired isLinked _ s h

lemma standard_cleanup_paired {α : Type} [DecidableEq α] (ident : α → α → Bool)
    (baseName : α → String) (isLinked : α → Bool) (coll0 : List α) :
    TraceIsPaired (standard_cleanup_with_grouping ident baseName isLinked coll0) := by
  unfold standard_cleanup_with_grouping
  refine foldl_preserved TraceIsPaired _ ?_ _ _ PairedTrace.nil
  intro s bg h
  dsimp only
  split
  · exact h
  · exact processIdentityGroups_paired isLinked _ s h

lemma choose_data_paired {α : Type} [DecidableEq α] (baseName : α → String)
    (isLinked : α → Bool) (name : α → String) (sel : String → Option String)
    (uiConflicts : List UIConflict) (coll0 : List α) :
    TraceIsPaired (choose_data_execution baseName isLinked name sel uiConflicts coll0) := by
  unfold choose_data_execution
  refine foldl_preserved TraceIsPaired _ ?_ _ _ PairedTrace.nil
  intro s c h
  unfold choose_data_step
  dsimp only
  split
  · exact h
  · split
    · exact h
    · split
      · exact h
      · split
        · exact h
        · rename_i target _
          exact pairedTrace_batch target _ s.2 h

lemma keep_linked_paired {α : Type} [DecidableEq α] (ident : α → α → Bool)
    (baseName : α → String) (isLinked : α → Bool)
    (uiConflicts : List UIConflict) (coll0 : List α) :
    TraceIsPaired (keep_linked_execution ident baseName isLinked uiConflicts coll0) := by
  unfold keep_linked_execution
  refine foldl_preserved TraceIsPaired _ ?_ _ _ PairedTrace.nil
  intro s c h
  unfold keep_linked_step
  dsimp only
  split
  · exact h
  · split
    · exact h
    · split
      · exact h
      · rename_i target _ _
        exact pairedTrace_batch target _ s.2 h

lemma conflict_cleanup_paired {α : Type} [DecidableEq α] (ident : α → α → Bool)
    (baseName : α → String) (isLinked : α → Bool) (name : α → String)
    (sel : String → Option String) (uiConflicts : List UIConflict) (coll0 : List α) :
    TraceIsPaired
      (conflict_cleanup_with_grouping ident baseName isLinked name sel uiConflicts coll0) := by
  unfold conflict_cleanup_with_grouping
  refine foldl_preserved TraceIsPaired _ ?_ _ _ PairedTrace.nil
  intro s c h
  dsimp only
  split
  · exact h
  · split
    · exact h
    · split
      · exact h
      · split
        · exact h
        · refine foldl_preserved TraceIsPaired _ ?_ _ _ h
          intro s' g h'
          dsimp only
          split
          · exact remapMembersTo_paired isLinked _ _ s' h'
          · exact remapMembersTo_paired isLinked _ _ s' h'

/-! ## CleanUp.py — `_remap_data` and the scene consumers (CleanUp.py
1021-1112)

Datablock references are by (unique) name.  A shader node carries the
attributes the remap functions test (`hasattr` false is `none`). -/

structure ShaderNode where
  ntype : String
  material : Option String
  node_tree : Option String
  image : Option String
deriving DecidableEq

structure SceneModifier where
  mtype : String
  node_group : Option String
deriving DecidableEq

structure SceneObject where
  material_slots : List (Option String)
  modifiers : List SceneModifier
deriving DecidableEq

structure SceneNodeGroup where
  gname : String
  nodes : List ShaderNode
deriving DecidableEq

structure SceneMaterial where
  mname : String
  node_tree : Option (List ShaderNode)
deriving DecidableEq

structure SceneWorld where
  node_tree : Option (List ShaderNode)
deriving DecidableEq

/-- The `bpy.data` consumers the remap functions walk. -/
structure Scene where
  objects : List SceneObject
  node_groups : List SceneNodeGroup
  materials : List SceneMaterial
  worlds : List SceneWorld
deriving DecidableEq

/-- Embedding of `CLEANUP_OT_clean_materials._remap_data` (CleanUp.py
1021-1034): object material slots and `material`-bearing nodes in node
groups. -/
def remap_material_data (old new : String) (s : Scene) : Scene :=
  { s with
    objects := s.objects.map (fun ob =>
      { ob with material_slots := ob.material_slots.map (fun slot =>
          if slot = some old then some new else slot) }),
    node_groups := s.node_groups.map (fun ng =>
      { ng with nodes := ng.nodes.map (fun nd =>
          if nd.material = some old then { nd with material := some new } else nd) }) }

/-- `node.type == 'GROUP' and hasattr(node, 'node_tree') and
node.node_tree == old_ng` (CleanUp.py 1052 etc.). -/
def remapGroupNode (old new : String) (nd : ShaderNode) : ShaderNode :=
  if nd.ntype = "GROUP" ∧ nd.node_tree = some old then
    { nd with node_tree := some new }
  else nd

/-- Embedding of `CLEANUP_OT_clean_node_groups._remap_data` (CleanUp.py
1045-1075): group nodes in other node groups (the removed group itself is
skipped), geometry-node modifiers, material node trees and world node
trees. -/
def remap_node_group_data (old new : String) (s : Scene) : Scene :=
  { s with
    node_groups := s.node_groups.map (fun ng =>
      if ng.gname = old then ng
      else { ng with nodes := ng.nodes.map (remapGroupNode old new) }),
    objects := s.objects.map (fun ob =>
      { ob with modifiers := ob.modifiers.map (fun md =>
          if md.mtype = "NODES" ∧ md.node_group = some old then
            { md with node_group := some new }
          else md) }),
    materials := s.materials.map (fun m =>
      { m with node_tree := m.node_tree.map (List.map (remapGroupNode old new)) }),
    worlds := s.worlds.map (fun w =>
      { w with node_tree := w.node_tree.map (List.map (remapGroupNode old new)) }) }

/-- `node.type == 'TEX_IMAGE' and hasattr(node, 'image') and
node.image == old_img` (CleanUp.py 1092 etc.). -/
def remapImageNode (old new : String) (nd : ShaderNode) : ShaderNode :=
  if nd.ntype = "TEX_IMAGE" ∧ nd.image = some old then
    { nd with image := some new }
  else nd

/-- Embedding of `CLEANUP_OT_clean_images._remap_data` (CleanUp.py
1086-1112): image nodes in material trees, node groups and world trees. -/
def remap_image_data (old new : String) (s : Scene) : Scene :=
  { s with
    materials := s.materials.map (fun m =>
      { m with node_tree := m.node_tree.map (List.map (remapImageNode old new)) }),
    node_groups := s.node_groups.map (fun ng =>
      { ng with nodes := ng.nodes.map (remapImageNode old new) }),
    worlds := s.worlds.map (fun w =>
      { w with node_tree := w.node_tree.map (List.map (remapImageNode old new)) }) }

lemma remapGroupNode_clears (old new : String) (hne : old ≠ new) (nd : ShaderNode) :
    (remapGroupNode old new nd).ntype = "GROUP" →
    (remapGroupNode old new nd).node_tree ≠ some old := by
  unfold remapGroupNode
  by_cases hc : nd.ntype = "GROUP" ∧ nd.node_tree = some old
  · simp only [hc, if_true]
    intro _ h
    injection h with h
    exact hne h.symm
  · simp only [hc, if_false]
    intro ht h
    exact hc ⟨ht, h⟩

lemma remapImageNode_clears (old new : String) (hne : old ≠ new) (nd : ShaderNode) :
    (remapImageNode old new nd).ntype = "TEX_IMAGE" →
    (remapImageNode old new nd).image ≠ some old := by
  unfold remapImageNode
  by_cases hc : nd.ntype = "TEX_IMAGE" ∧ nd.image = some old
  · simp only [hc, if_true]
    intro _ h
    injection h with h
    exact hne h.symm
  · simp only [hc, if_false]
    intro ht h
    exact hc ⟨ht, h⟩

/-- After `CLEANUP_OT_clean_materials._remap_data`, no known consumer
references the removed material. -/
lemma remap_material_data_clears (old new : String) (hne : old ≠ new) (s : Scene) :
    (∀ ob ∈ (remap_material_data old new s).objects,
      ∀ slot ∈ ob.material_slots, slot ≠ some old) ∧
    (∀ ng ∈ (remap_material_data old new s).node_groups,
      ∀ nd ∈ ng.nodes, nd.material ≠ some old) := by
  constructor
  · intro ob hob slot hslot
    simp only [remap_material_data, List.mem_map] at hob
    obtain ⟨ob0, _, rfl⟩ := hob
    simp only [List.mem_map] at hslot
    obtain ⟨slot0, _, rfl⟩ := hslot
    by_cases hs : slot0 = some old
    · simp only [hs, if_pos rfl]
      intro h
      injection h with h
      exact hne h.symm
    · simpa [hs] using hs
  · intro ng hng nd hnd
    simp only [remap_material_data, List.mem_map] at hng
    obtain ⟨ng0, _, rfl⟩ := hng
    simp only [List.mem_map] at hnd
    obtain ⟨nd0, _, rfl⟩ := hnd
    by_cases hm : nd0.material = some old
    · simp only [hm, if_pos rfl]
      intro h
      injection h with h
      exact hne h.symm
    · simpa [hm] using hm

/-- After `CLEANUP_OT_clean_node_groups._remap_data`, no known consumer
references the removed node group (the removed group's own nodes are
skipped by the source and the group itself is deleted right after). -/
lemma remap_node_group_data_clears (old new : String) (hne : old ≠ new) (s : Scene) :
    (∀ ng ∈ (remap_node_group_data old new s).node_groups, ng.gname ≠ old →
      ∀ nd ∈ ng.nodes, nd.ntype = "GROUP" → nd.node_tree ≠ some old) ∧
    (∀ ob ∈ (remap_node_group_data old new s).objects, ∀ md ∈ ob.modifiers,
      md.mtype = "NODES" → md.node_group ≠ some old) ∧
    (∀ m ∈ (remap_node_group_data old new s).materials, ∀ tree,
      m.node_tree = some tree → ∀ nd ∈ tree, nd.ntype = "GROUP" →
        nd.node_tree ≠ some old) ∧
    (∀ w ∈ (remap_node_group_data old new s).worlds, ∀ tree,
      w.node_tree = some tree → ∀ nd ∈ tree, nd.ntype = "GROUP" →
        nd.node_tree ≠ some old) := by
  refine ⟨?_, ?_, ?_, ?_⟩
  · intro ng hng hname nd hnd
    simp only [remap_node_group_data, List.mem_map] at hng
    obtain ⟨ng0, _, rfl⟩ := hng
    by_cases hg : ng0.gname = old
    · simp only [hg, if_pos rfl] at hname hnd ⊢
      exact absurd hg hname
    · simp only [hg, if_false] at hname hnd ⊢
      simp only [List.mem_map] at hnd
      obtain ⟨nd0, _, rfl⟩ := hnd
      exact remapGroupNode_clears old new hne nd0
  · intro ob hob md hmd
    simp only [remap_node_group_data, List.mem_map] at hob
    obtain ⟨ob0, _, rfl⟩ := hob
    simp only [List.mem_map] at hmd
    obtain ⟨md0, _, rfl⟩ := hmd
    by_cases hc : md0.mtype = "NODES" ∧ md0.node_group = some old
    · simp only [hc, if_pos rfl]
      intro _ h
      injection h with h
      exact hne h.symm
    · simp only [hc, if_false]
      intro ht h
      exact hc ⟨ht, h⟩
  · intro m hm tree htree nd hnd
    simp only [remap_node_group_data, List.mem_map] at hm
    obtain ⟨m0, _, rfl⟩ := hm
    simp only [Option.map_eq_some'] at htree
    obtain ⟨tree0, _, rfl⟩ := htree
    simp only [List.mem_map] at hnd
    obtain ⟨nd0, _, rfl⟩ := hnd
    exact remapGroupNode_clears old new hne nd0
  · intro w hw tree htree nd hnd
    simp only [remap_node_group_data, List.mem_map] at hw
    obtain ⟨w0, _, rfl⟩ := hw
    simp only [Option.map_eq_some'] at htree
    obtain ⟨tree0, _, rfl⟩ := htree
    simp only [List.mem_map] at hnd
    obtain ⟨nd0, _, rfl⟩ := hnd
    exact remapGroupNode_clears old new hne nd0

/-- After `CLEANUP_OT_clean_images._remap_data`, no known consumer
references the removed image. -/
lemma remap_image_data_clears (old new : String) (hne : old ≠ new) (s : Scene) :
    (∀ m ∈ (remap_image_data old new s).materials, ∀ tree,
      m.node_tree = some tree → ∀ nd ∈ tree, nd.ntype = "TEX_IMAGE" →
        nd.image ≠ some old) ∧
    (∀ ng ∈ (remap_image_data old new s).node_groups, ∀ nd ∈ ng.nodes,
      nd.ntype = "TEX_IMAGE" → nd.image ≠ some old) ∧
    (∀ w ∈ (remap_image_data old new s).worlds, ∀ tree,
      w.node_tree = some tree → ∀ nd ∈ tree, nd.ntype = "TEX_IMAGE" →
        nd.image ≠ some old) := by
  refine ⟨?_, ?_, ?_⟩
  · intro m hm tree htree nd hnd
    simp only [remap_image_data, List.mem_map] at hm
    obtain ⟨m0, _, rfl⟩ := hm
    simp only [Option.map_eq_some'] at htree
    obtain ⟨tree0, _, rfl⟩ := htree
    simp only [List.mem_map] at hnd
    obtain ⟨nd0, _, rfl⟩ := hnd
    exact remapImageNode_clears old new hne nd0
  · intro ng hng nd hnd
    simp only [remap_image_data, List.mem_map] at hng
    obtain ⟨ng0, _, rfl⟩ := hng
    simp only [List.mem_map] at hnd
    obtain ⟨nd0, _, rfl⟩ := hnd
    exact remapImageNode_clears old new hne nd0
  · intro w hw tree htree nd hnd
    simp only [remap_image_data, List.mem_map] at hw
    obtain ⟨w0, _, rfl⟩ := hw
    simp only [Option.map_eq_some'] at htree
    obtain ⟨tree0, _, rfl⟩ := htree
    simp only [List.mem_map] at hnd
    obtain ⟨nd0, _, rfl⟩ := hnd
    exact remapImageNode_clears old new hne nd0

/-- Claim C1: in every cleanup resolution strategy the operator first
remaps consumers away from a datablock and only afterwards removes it —
every `removed` event in every execution trace is preceded by a `remap` of
the same datablock — and each per-type `_remap_data` remaps every known
consumer (object material slots, node-group nodes, geometry-node
modifiers, world/material shader nodes) off the removed datablock. -/
theorem C1_remap_before_remove :
    (∀ {α : Type} [inst : DecidableEq α] (ident : α → α → Bool) (baseName : α → String)
      (isLinked : α → Bool) (name : α → String) (sel : String → Option String)
      (uiConflicts : List UIConflict) (coll0 : List α),
      removePrecededByRemap (auto_clean_execution ident baseName isLinked coll0).2 ∧
      removePrecededByRemap
        (choose_data_execution baseName isLinked name sel uiConflicts coll0).2 ∧
      removePrecededByRemap
        (keep_linked_execution ident baseName isLinked uiConflicts coll0).2 ∧
      removePrecededByRemap
        (standard_cleanup_with_grouping ident baseName isLinked coll0).2 ∧
      removePrecededByRemap
        (conflict_cleanup_with_grouping ident baseName isLinked name sel
          uiConflicts coll0).2) ∧
    (∀ (old new : String) (s : Scene), old ≠ new →
      ((∀ ob ∈ (remap_material_data old new s).objects,
          ∀ slot ∈ ob.material_slots, slot ≠ some old) ∧
        (∀ ng ∈ (remap_material_data old new s).node_groups,
          ∀ nd ∈ ng.nodes, nd.material ≠ some old)) ∧
      ((∀ ng ∈ (remap_node_group_data old new s).node_groups, ng.gname ≠ old →
          ∀ nd ∈ ng.nodes, nd.ntype = "GROUP" → nd.node_tree ≠ some old) ∧
        (∀ ob ∈ (remap_node_group_data old new s).objects, ∀ md ∈ ob.modifiers,
          md.mtype = "NODES" → md.node_group ≠ some old) ∧
        (∀ m ∈ (remap_node_group_data old new s).materials, ∀ tree,
          m.node_tree = some tree → ∀ nd ∈ tree, nd.ntype = "GROUP" →
            nd.node_tree ≠ some old) ∧
        (∀ w ∈ (remap_node_group_data old new s).worlds, ∀ tree,
          w.node_tree = some tree → ∀ nd ∈ tree, nd.ntype = "GROUP" →
            nd.node_tree ≠ some old)) ∧
      ((∀ m ∈ (remap_image_data old new s).materials, ∀ tree,
          m.node_tree = some tree → ∀ nd ∈ tree, nd.ntype = "TEX_IMAGE" →
            nd.image ≠ some old) ∧
        (∀ ng ∈ (remap_image_data old new s).node_groups, ∀ nd ∈ ng.nodes,
          nd.ntype = "TEX_IMAGE" → nd.image ≠ some old) ∧
        (∀ w ∈ (remap_image_data old new s).worlds, ∀ tree,
          w.node_tree = some tree → ∀ nd ∈ tree, nd.ntype = "TEX_IMAGE" →
            nd.image ≠ some old))) := by
  constructor
  · intro α inst ident baseName isLinked name sel uiConflicts coll0
    exact ⟨pairedTrace_ordered (auto_clean_paired ident baseName isLinked coll0),
      pairedTrace_ordered (choose_data_paired baseName isLinked name sel uiConflicts coll0),
      pairedTrace_ordered (keep_linked_paired ident baseName isLinked uiConflicts coll0),
      pairedTrace_ordered (standard_cleanup_paired ident baseName isLinked coll0),
      pairedTrace_ordered
        (conflict_cleanup_paired ident baseName isLinked name sel uiConflicts coll0)⟩
  · intro old new s hne
    exact ⟨remap_material_data_clears old new hne s,
      remap_node_group_data_clears old new hne s,
      remap_image_data_clears old new hne s⟩

def c1mat1 : BMaterial := ⟨"Wood", none, false, none, (2, 1, 0), 1, 3⟩

def c1mat2 : BMaterial := ⟨"Wood.001", none, false, none, (2, 1, 0), 1, 3⟩

def c1scene : Scene :=
  ⟨[⟨[some "Wood.001", some "Steel"], []⟩], [⟨"G", [⟨"GROUP", some "Wood.001", none, none⟩]⟩],
    [], []⟩

/-- Closed witness for the C1 theorem: the auto-clean trace on a concrete
duplicate pair has its removal at index 1, preceded by the remap at index
0; and a concrete material remap leaves no slot pointing at the removed
material. -/
theorem C1_remap_before_remove_witness :
    (∃ j k, j < 1 ∧
      (auto_clean_execution are_materials_identical matBaseName matIsLinked
        [c1mat1, c1mat2]).2.get? j = some (.remap c1mat2 k)) ∧
    (∀ ob ∈ (remap_material_data "Wood.001" "Wood" c1scene).objects,
      ∀ slot ∈ ob.material_slots, slot ≠ some "Wood.001") :=
  ⟨(C1_remap_before_remove.1 are_materials_identical matBaseName matIsLinked
      (fun m => m.mat_name) (fun _ => none) [] [c1mat1, c1mat2]).1 1 c1mat2 (by decide),
   ((C1_remap_before_remove.2 "Wood.001" "Wood" c1scene (by decide)).1).1⟩

/-! ## Claim C3 — the three resolution strategies and their semantics -/

lemma chooseRepresentative_mem {α : Type} (isLinked : α → Bool) (members : List α)
    (rep : α) (h : chooseRepresentative isLinked members = some rep) : rep ∈ members := by
  unfold chooseRepresentative at h
  cases hf : members.filter (fun m => !isLinked m) with
  | cons m tl =>
    rw [hf] at h
    injection h with h
    subst h
    exact List.mem_of_mem_filter (hf ▸ List.mem_cons_self m tl)
  | nil =>
    rw [hf] at h
    exact List.mem_of_mem_head? h

/-- Two distinct members of a well-formed identity group are identical,
provided the comparison is symmetric and transitive (which each per-type
comparison is, being the kernel of a key function). -/
lemma groupWF_ident_of_mem {α : Type} (ident : α → α → Bool)
    (hsym : ∀ a b, ident a b = true → ident b a = true)
    (htrans : ∀ a b c, ident a b = true → ident b c = true → ident a c = true)
    (g : IdentityGroup α) (hwf : GroupWF ident g) (m rep : α)
    (hm : m ∈ g.members) (hrep : rep ∈ g.members) (hne : m ≠ rep) :
    ident m rep = true := by
  obtain ⟨_, hmem⟩ := hwf
  rcases hmem m hm with hm1 | hm1 <;> rcases hmem rep hrep with hr1 | hr1
  · exact absurd (hm1.trans hr1.symm) hne
  · exact hm1 ▸ hsym _ _ hr1
  · exact hr1 ▸ hm1
  · exact htrans _ _ _ hm1 (hsym _ _ hr1)

/-- Soundness of the member loop's remap events. -/
lemma processGroupMembers_remap_sound {α : Type} [DecidableEq α] (isLinked : α → Bool)
    (Q : α → α → Prop) (rep : α) :
    ∀ (members : List α) (st : CleanupState α),
      (∀ m ∈ members, m ≠ rep → isLinked m = false → Q m rep) →
      (∀ o k, CleanupEvent.remap o k ∈ st.2 → Q o k) →
      ∀ o k, CleanupEvent.remap o k ∈ (processGroupMembers isLinked rep members st).2 →
        Q o k := by
  intro members
  induction members with
  | nil => intro st _ hst o k h; exact hst o k h
  | cons m tl ih =>
    intro st hQ hst o k h
    simp only [processGroupMembers, List.foldl_cons] at h
    by_cases hrep : m = rep
    · simp only [hrep, if_pos rfl] at h
      exact ih st (fun m hm => hQ m (List.mem_cons_of_mem _ hm)) hst o k h
    · simp only [hrep, if_false] at h
      by_cases hl : isLinked m = true
      · simp only [hl, if_true] at h
        exact ih st (fun m hm => hQ m (List.mem_cons_of_mem _ hm)) hst o k h
      · simp only [hl, Bool.false_eq_true, if_false] at h
        refine ih _ (fun m hm => hQ m (List.mem_cons_of_mem _ hm)) ?_ o k h
        intro o' k' ho'
        rcases List.mem_append.mp ho' with ho' | ho'
        · exact hst o' k' ho'
        · simp only [remapRemoveBlock, List.mem_cons] at ho'
          rcases ho' with ho' | ho' | ho'
          · injection ho' with h1 h2
            exact h1 ▸ h2 ▸ hQ m (by simp) hrep (by simpa using hl)
          · exact CleanupEvent.noConfusion ho'
          · exact absurd ho' (List.not_mem_nil _)

/-- Soundness of the identity-group loop's remap events: every remap pairs
two distinct members of one well-formed identity group with the old one
local. -/
lemma processIdentityGroups_remap_sound {α : Type} [DecidableEq α]
    (ident : α → α → Bool) (isLinked : α → Bool)
    (hsym : ∀ a b, ident a b = true → ident b a = true)
    (htrans : ∀ a b c, ident a b = true → ident b c = true → ident a c = true) :
    ∀ (igroups : List (IdentityGroup α)) (st : CleanupState α),
      (∀ g ∈ igroups, GroupWF ident g) →
      (∀ o k, CleanupEvent.remap o k ∈ st.2 →
        isLinked o = false ∧ ident o k = true) →
      ∀ o k, CleanupEvent.remap o k ∈ (processIdentityGroups isLinked igroups st).2 →
        isLinked o = false ∧ ident o k = true := by
  intro igroups
  induction igroups with
  | nil => intro st _ hst o k h; exact hst o k h
  | cons g tl ih =>
    intro st hwf hst o k h
    simp only [processIdentityGroups, List.foldl_cons] at h
    by_cases hlen : g.members.length ≤ 1
    · simp only [hlen, if_pos] at h
      exact ih st (fun g hg => hwf g (List.mem_cons_of_mem _ hg)) hst o k h
    · simp only [hlen, if_false] at h
      cases hcr : chooseRepresentative isLinked g.members with
      | none =>
        rw [hcr] at h
        exact ih st (fun g hg => hwf g (List.mem_cons_of_mem _ hg)) hst o k h
      | some rep =>
        rw [hcr] at h
        refine ih _ (fun g hg => hwf g (List.mem_cons_of_mem _ hg)) ?_ o k h
        refine processGroupMembers_remap_sound isLinked _ rep g.members st ?_ hst
        intro m hm hne hloc
        exact ⟨hloc, groupWF_ident_of_mem ident hsym htrans g (hwf g (by simp)) m rep hm
          (chooseRepresentative_mem isLinked g.members rep hcr) hne⟩

/-- Claim C3, AUTO_CLEAN part: every remap in an auto-clean run pairs a
local item with a structurally identical kept item. -/
lemma auto_clean_remap_sound {α : Type} [DecidableEq α] (ident : α → α → Bool)
    (baseName : α → String) (isLinked : α → Bool)
    (hsym : ∀ a b, ident a b = true → ident b a = true)
    (htrans : ∀ a b c, ident a b = true → ident b c = true → ident a c = true)
    (coll0 : List α) :
    ∀ o k, CleanupEvent.remap o k ∈ (auto_clean_execution ident baseName isLinked coll0).2 →
      isLinked o = false ∧ ident o k = true := by
  unfold auto_clean_execution
  refine foldl_preserved
    (fun st : CleanupState α =>
      ∀ o k, CleanupEvent.remap o k ∈ st.2 → isLinked o = false ∧ ident o k = true)
    _ ?_ _ _ (by intro o k h; simp at h)
  intro s bnInfo h
  dsimp only
  split
  · exact h
  · split
    · exact h
    · exact processIdentityGroups_remap_sound ident isLinked hsym htrans _ s
        (group_items_by_identity_wf ident _) h

lemma removed_has_remap {α : Type} {tr : List (CleanupEvent α)}
    (h : removePrecededByRemap tr) :
    ∀ o, CleanupEvent.removed o ∈ tr → ∃ k, CleanupEvent.remap o k ∈ tr := by
  intro o ho
  obtain ⟨i, hi⟩ := List.mem_iff_get?.mp ho
  obtain ⟨j, k, _, hj⟩ := h i o hi
  exact ⟨k, List.get?_mem hj⟩

lemma foldl_preserved_mem {σ β : Type} (P : σ → Prop) (f : σ → β → σ) :
    ∀ (l : List β), (∀ s b, b ∈ l → P s → P (f s b)) → ∀ s, P s → P (l.foldl f s) := by
  intro l
  induction l with
  | nil => intro _ s h; exact h
  | cons b tl ih =>
    intro hf s h
    exact ih (fun s b' hb' => hf s b' (List.mem_cons_of_mem _ hb')) (f s b)
      (hf s b (by simp) h)

lemma foldl_trace_extends {σ β E : Type} (f : σ → β → σ) (tr : σ → List E)
    (hf : ∀ s b, ∃ t, tr (f s b) = tr s ++ t) :
    ∀ (l : List β) (s : σ), ∃ t, tr (l.foldl f s) = tr s ++ t := by
  intro l
  induction l with
  | nil => intro s; exact ⟨[], by simp⟩
  | cons b tl ih =>
    intro s
    obtain ⟨t1, ht1⟩ := hf s b
    obtain ⟨t2, ht2⟩ := ih (f s b)
    exact ⟨t1 ++ t2, by simp [List.foldl_cons, ht2, ht1, List.append_assoc]⟩

lemma choose_data_step_trace_extends {α : Type} [DecidableEq α] (baseName : α → String)
    (isLinked : α → Bool) (name : α → String) (sel : String → Option String)
    (st : CleanupState α) (c : UIConflict) :
    ∃ t, (choose_data_step baseName isLinked name sel st c).2 = st.2 ++ t := by
  unfold choose_data_step
  dsimp only
  split
  · exact ⟨[], by simp⟩
  · split
    · exact ⟨[], by simp⟩
    · split
      · exact ⟨[], by simp⟩
      · split
        · exact ⟨[], by simp⟩
        · exact ⟨_, rfl⟩

lemma choose_data_step_filter_preserved {α : Type} [DecidableEq α]
    (baseName : α → String) (isLinked : α → Bool) (name : α → String)
    (sel : String → Option String) (bn : String) (st : CleanupState α) (c : UIConflict)
    (hbn : c.base_name ≠ bn) :
    (choose_data_step baseName isLinked name sel st c).1.filter
        (fun i => baseName i == bn) =
      st.1.filter (fun i => baseName i == bn) := by
  unfold choose_data_step
  dsimp only
  split
  · rfl
  · split
    · rfl
    · split
      · rfl
      · split
        · rfl
        · rename_i target _
          dsimp only
          refine eraseFold_filter (fun i => baseName i == bn) _ ?_ st.1
          intro v hv
          have hv1 := List.of_mem_filter hv
          have hv2 := List.of_mem_filter (List.mem_of_mem_filter hv)
          simp only [beq_iff_eq] at hv2 ⊢
          simp only [beq_eq_false_iff_ne, ne_eq]
          rw [hv2]
          exact hbn

/-- Claim C3, CHOOSE_DATA part: for a non-skipped conflict with at least
two local items whose stored selection names `target`, every other
non-linked item of that base name is remapped onto `target` and removed;
the target is the item the user chose. -/
lemma choose_data_spec {α : Type} [DecidableEq α] (baseName : α → String)
    (isLinked : α → Bool) (name : α → String) (sel : String → Option String)
    (pre post : List UIConflict) (c : UIConflict) (coll0 : List α)
    (hpre : ∀ c' ∈ pre, c'.base_name ≠ c.base_name)
    (hskip : c.skip_this_conflict = false)
    (hlocals : ¬ ((coll0.filter (fun i => baseName i == c.base_name)).filter
      (fun i => !isLinked i)).length < 2)
    (sname : String) (hsel : (sel c.base_name).getD "" = sname) (hsne : ¬ sname = "")
    (target : α)
    (hfind : (coll0.filter (fun i => baseName i == c.base_name)).find?
      (fun i => name i == sname) = some target) :
    name target = sname ∧
    ∀ item ∈ coll0.filter (fun i => baseName i == c.base_name),
      item ≠ target → isLinked item = false →
      CleanupEvent.remap item target ∈
        (choose_data_execution baseName isLinked name sel (pre ++ c :: post) coll0).2 ∧
      CleanupEvent.removed item ∈
        (choose_data_execution baseName isLinked name sel (pre ++ c :: post) coll0).2 := by
  constructor
  · have h := List.find?_some hfind
    simpa using h
  · intro item hitem hneq hlocal
    unfold choose_data_execution
    rw [List.foldl_append, List.foldl_cons]
    set stp := pre.foldl (choose_data_step baseName isLinked name sel)
      ((coll0, []) : CleanupState α) with hstp
    have hfil : stp.1.filter (fun i => baseName i == c.base_name) =
        coll0.filter (fun i => baseName i == c.base_name) := by
      rw [hstp]
      refine foldl_preserved_mem
        (fun st : CleanupState α => st.1.filter (fun i => baseName i == c.base_name) =
          coll0.filter (fun i => baseName i == c.base_name)) _ pre ?_ _ rfl
      intro s b hb hs
      rw [choose_data_step_filter_preserved baseName isLinked name sel c.base_name s b
        (hpre b hb)]
      exact hs
    have hstep : choose_data_step baseName isLinked name sel stp c =
        (((coll0.filter (fun i => baseName i == c.base_name)).filter
            (fun i => decide (i ≠ target) && !isLinked i)).foldl
              (fun l v => l.erase v) stp.1,
         stp.2 ++ ((coll0.filter (fun i => baseName i == c.base_name)).filter
            (fun i => decide (i ≠ target) && !isLinked i)).flatMap
              (fun v => remapRemoveBlock v target)) := by
      unfold choose_data_step
      dsimp only
      rw [if_neg (by rw [hskip]; exact Bool.false_ne_true)]
      rw [hfil, if_neg hlocals, hsel, if_neg hsne, hfind]
    rw [hstep]
    obtain ⟨t, ht⟩ := foldl_trace_extends (choose_data_step baseName isLinked name sel)
      (fun st => st.2)
      (fun s b => choose_data_step_trace_extends baseName isLinked name sel s b) post _
    rw [ht]
    have hvict : item ∈ (coll0.filter (fun i => baseName i == c.base_name)).filter
        (fun i => decide (i ≠ target) && !isLinked i) :=
      List.mem_filter.mpr ⟨hitem, by simp [hneq, hlocal]⟩
    constructor
    · refine List.mem_append.mpr (Or.inl (List.mem_append.mpr (Or.inr ?_)))
      exact List.mem_flatMap.mpr ⟨item, hvict, by simp [remapRemoveBlock]⟩
    · refine List.mem_append.mpr (Or.inl (List.mem_append.mpr (Or.inr ?_)))
      exact List.mem_flatMap.mpr ⟨item, hvict, by simp [remapRemoveBlock]⟩

/-- Claim C3, KEEP_LINKED part (soundness): every remap of a keep-linked
run sends a local item of some analyzed conflict to the first linked item
of that same conflict. -/
lemma keep_linked_remap_sound {α : Type} [DecidableEq α] (ident : α → α → Bool)
    (baseName : α → String) (isLinked : α → Bool)
    (uiConflicts : List UIConflict) (coll0 : List α) :
    ∀ o k, CleanupEvent.remap o k ∈
        (keep_linked_execution ident baseName isLinked uiConflicts coll0).2 →
      isLinked o = false ∧ isLinked k = true ∧
      ∃ bn info,
        (bn, info) ∈ analyze_data_conflicts_with_grouping ident baseName isLinked coll0 ∧
        (info.items.filter isLinked).head? = some k ∧
        o ∈ info.items.filter (fun i => !isLinked i) := by
  unfold keep_linked_execution
  refine foldl_preserved
    (fun st : CleanupState α => ∀ o k, CleanupEvent.remap o k ∈ st.2 →
      isLinked o = false ∧ isLinked k = true ∧
      ∃ bn info,
        (bn, info) ∈ analyze_data_conflicts_with_grouping ident baseName isLinked coll0 ∧
        (info.items.filter isLinked).head? = some k ∧
        o ∈ info.items.filter (fun i => !isLinked i))
    _ ?_ _ _ (by intro o k h; simp at h)
  intro s c h
  unfold keep_linked_step
  dsimp only
  split
  · exact h
  · split
    · exact h
    · rename_i info hlookup
      split
      · exact h
      · rename_i target tl hlinked
        intro o k ho
        rcases List.mem_append.mp ho with ho | ho
        · exact h o k ho
        · obtain ⟨v, hv, ho⟩ := List.mem_flatMap.mp ho
          simp only [remapRemoveBlock, List.mem_cons] at ho
          rcases ho with ho | ho | ho
          · injection ho with h1 h2
            subst h1; subst h2
            refine ⟨by simpa using (List.of_mem_filter hv), ?_, c.base_name, info,
              lookup_mem _ _ _ hlookup, ?_, hv⟩
            · have : k ∈ info.items.filter isLinked := hlinked ▸ List.mem_cons_self k tl
              exact List.of_mem_filter this
            · rw [hlinked]
              rfl
          · exact CleanupEvent.noConfusion ho
          · exact absurd ho (List.not_mem_nil _)

lemma keep_linked_step_filter_preserved {α : Type} [DecidableEq α] (ident : α → α → Bool)
    (baseName : α → String) (isLinked : α → Bool) (coll0 : List α) (bn : String)
    (hno : ∀ info,
      (analyze_data_conflicts_with_grouping ident baseName isLinked coll0).lookup bn =
        some info → info.items.filter isLinked = []) :
    ∀ (st : CleanupState α) (c : UIConflict),
      (keep_linked_step isLinked
          (analyze_data_conflicts_with_grouping ident baseName isLinked coll0)
          st c).1.filter (fun i => baseName i == bn) =
        st.1.filter (fun i => baseName i == bn) := by
  intro st c
  unfold keep_linked_step
  dsimp only
  split
  · rfl
  · split
    · rfl
    · rename_i info hlookup
      split
      · rfl
      · rename_i target tl hlinked
        by_cases hc : c.base_name = bn
        · exact absurd (hno info (hc ▸ hlookup)) (by rw [hlinked]; simp)
        · dsimp only
          refine eraseFold_filter (fun i => baseName i == bn) _ ?_ st.1
          intro v hv
          have hv1 : v ∈ info.items := List.mem_of_mem_filter hv
          have hitems := (analyze_mem ident baseName isLinked coll0
            (c.base_name, info) (lookup_mem _ _ _ hlookup)).1
          simp only at hitems
          rw [hitems] at hv1
          have hv2 := List.of_mem_filter hv1
          simp only [beq_iff_eq] at hv2
          simp only [beq_eq_false_iff_ne, ne_eq, hv2]
          exact hc

/-- Claim C3, KEEP_LINKED part (no linked item): a conflict whose analysis
found no linked item is left untouched — the collection's items of that
base name are unchanged. -/
lemma keep_linked_untouched {α : Type} [DecidableEq α] (ident : α → α → Bool)
    (baseName : α → String) (isLinked : α → Bool)
    (uiConflicts : List UIConflict) (coll0 : List α) (bn : String)
    (hno : ∀ info,
      (analyze_data_conflicts_with_grouping ident baseName isLinked coll0).lookup bn =
        some info → info.items.filter isLinked = []) :
    (keep_linked_execution ident baseName isLinked uiConflicts coll0).1.filter
        (fun i => baseName i == bn) =
      coll0.filter (fun i => baseName i == bn) := by
  unfold keep_linked_execution
  refine foldl_preserved
    (fun st : CleanupState α => st.1.filter (fun i => baseName i == bn) =
      coll0.filter (fun i => baseName i == bn)) _ ?_ _ _ rfl
  intro s c h
  rw [keep_linked_step_filter_preserved ident baseName isLinked coll0 bn hno s c]
  exact h

/-- `are_materials_identical` is the kernel of this key function. -/
def matKey (m : BMaterial) : Bool × Option (Nat × List String) ×
    Option ((Int × Int × Int) × Int × Int) :=
  if m.use_nodes then
    (true, m.node_tree.map (fun t => (t.length, sortStrings t)), none)
  else
    (false, none, some (m.diffuse_color, m.metallic, m.roughness))

lemma are_materials_identical_iff_key (m1 m2 : BMaterial) :
    are_materials_identical m1 m2 = true ↔ matKey m1 = matKey m2 := by
  unfold are_materials_identical matKey
  rcases hb1 : m1.use_nodes <;> rcases hb2 : m2.use_nodes
  · simp [hb1, hb2, Prod.ext_iff]
  · simp [hb1, hb2]
  · simp [hb1, hb2]
  · cases ht1 : m1.node_tree <;> cases ht2 : m2.node_tree
    · simp [hb1, hb2]
    · simp [hb1, hb2]
    · simp [hb1, hb2]
    · rename_i n1 n2
      by_cases hl : n1.length = n2.length
      · simp [hb1, hb2, hl]
      · have hbne : (n1.length != n2.length) = true := by simpa using hl
        simp [hb1, hb2, hbne, hl]

lemma are_materials_identical_symm (m1 m2 : BMaterial)
    (h : are_materials_identical m1 m2 = true) :
    are_materials_identical m2 m1 = true := by
  rw [are_materials_identical_iff_key] at h ⊢
  exact h.symm

lemma are_materials_identical_trans (m1 m2 m3 : BMaterial)
    (h1 : are_materials_identical m1 m2 = true)
    (h2 : are_materials_identical m2 m3 = true) :
    are_materials_identical m1 m3 = true := by
  rw [are_materials_identical_iff_key] at h1 h2 ⊢
  exact h1.trans h2

/-- Claim C3: with conflicts present, `execute` offers exactly the three
strategies of the `global_resolution` enum, whose default is `AUTO_CLEAN`;
`AUTO_CLEAN` removes only local duplicates that are structurally identical
to the item kept; `CHOOSE_DATA` remaps every other same-base-name local
item onto the item the user chose; `KEEP_LINKED` remaps local items onto
the first linked item of their conflict and leaves conflicts without a
linked item untouched. -/
theorem C3_three_resolution_strategies :
    (∀ r : Resolution, r = .AUTO_CLEAN ∨ r = .CHOOSE_DATA ∨ r = .KEEP_LINKED) ∧
    global_resolution_default = .AUTO_CLEAN ∧
    (∀ {α : Type} [inst : DecidableEq α] (ident : α → α → Bool) (baseName : α → String)
      (isLinked : α → Bool) (name : α → String) (sel : String → Option String)
      (uiConflicts : List UIConflict) (coll0 : List α),
      cleanup_execute ident baseName isLinked name sel uiConflicts true
          .AUTO_CLEAN coll0 = auto_clean_execution ident baseName isLinked coll0 ∧
      cleanup_execute ident baseName isLinked name sel uiConflicts true
          .CHOOSE_DATA coll0 =
        choose_data_execution baseName isLinked name sel uiConflicts coll0 ∧
      cleanup_execute ident baseName isLinked name sel uiConflicts true
          .KEEP_LINKED coll0 =
        keep_linked_execution ident baseName isLinked uiConflicts coll0) ∧
    (∀ {α : Type} [inst : DecidableEq α] (ident : α → α → Bool) (baseName : α → String)
      (isLinked : α → Bool),
      (∀ a b, ident a b = true → ident b a = true) →
      (∀ a b c, ident a b = true → ident b c = true → ident a c = true) →
      ∀ (coll0 : List α),
      (∀ o k, CleanupEvent.remap o k ∈
          (auto_clean_execution ident baseName isLinked coll0).2 →
        isLinked o = false ∧ ident o k = true) ∧
      (∀ o, CleanupEvent.removed o ∈
          (auto_clean_execution ident baseName isLinked coll0).2 →
        ∃ k, CleanupEvent.remap o k ∈
          (auto_clean_execution ident baseName isLinked coll0).2)) ∧
    (∀ {α : Type} [inst : DecidableEq α] (baseName : α → String) (isLinked : α → Bool)
      (name : α → String) (sel : String → Option String) (pre post : List UIConflict)
      (c : UIConflict) (coll0 : List α),
      (∀ c' ∈ pre, c'.base_name ≠ c.base_name) →
      c.skip_this_conflict = false →
      ¬ ((coll0.filter (fun i => baseName i == c.base_name)).filter
        (fun i => !isLinked i)).length < 2 →
      ∀ sname, (sel c.base_name).getD "" = sname → ¬ sname = "" →
      ∀ target, (coll0.filter (fun i => baseName i == c.base_name)).find?
        (fun i => name i == sname) = some target →
      name target = sname ∧
      ∀ item ∈ coll0.filter (fun i => baseName i == c.base_name),
        item ≠ target → isLinked item = false →
        CleanupEvent.remap item target ∈
          (choose_data_execution baseName isLinked name sel (pre ++ c :: post) coll0).2 ∧
        CleanupEvent.removed item ∈
          (choose_data_execution baseName isLinked name sel (pre ++ c :: post) coll0).2) ∧
    (∀ {α : Type} [inst : DecidableEq α] (ident : α → α → Bool) (baseName : α → String)
      (isLinked : α → Bool) (uiConflicts : List UIConflict) (coll0 : List α),
      (∀ o k, CleanupEvent.remap o k ∈
          (keep_linked_execution ident baseName isLinked uiConflicts coll0).2 →
        isLinked o = false ∧ isLinked k = true ∧
        ∃ bn info, (bn, info) ∈
            analyze_data_conflicts_with_grouping ident baseName isLinked coll0 ∧
          (info.items.filter isLinked).head? = some k ∧
          o ∈ info.items.filter (fun i => !isLinked i)) ∧
      (∀ bn, (∀ info,
          (analyze_data_conflicts_with_grouping ident baseName isLinked coll0).lookup bn =
            some info → info.items.filter isLinked = []) →
        (keep_linked_execution ident baseName isLinked uiConflicts coll0).1.filter
            (fun i => baseName i == bn) =
          coll0.filter (fun i => baseName i == bn))) := by
  refine ⟨?_, rfl, ?_, ?_, ?_, ?_⟩
  · intro r
    cases r
    · exact Or.inl rfl
    · exact Or.inr (Or.inl rfl)
    · exact Or.inr (Or.inr rfl)
  · intro α inst ident baseName isLinked name sel uiConflicts coll0
    exact ⟨rfl, rfl, rfl⟩
  · intro α inst ident baseName isLinked hsym htrans coll0
    refine ⟨auto_clean_remap_sound ident baseName isLinked hsym htrans coll0, ?_⟩
    exact removed_has_remap
      (pairedTrace_ordered (auto_clean_paired ident baseName isLinked coll0))
  · intro α inst baseName isLinked name sel pre post c coll0 hpre hskip hlocals sname
      hsel hsne target hfind
    exact choose_data_spec baseName isLinked name sel pre post c coll0 hpre hskip
      hlocals sname hsel hsne target hfind
  · intro α inst ident baseName isLinked uiConflicts coll0
    exact ⟨keep_linked_remap_sound ident baseName isLinked uiConflicts coll0,
      fun bn hno =>
        keep_linked_untouched ident baseName isLinked uiConflicts coll0 bn hno⟩

def c3mat1 : BMaterial := ⟨"Iron", none, false, none, (3, 3, 3), 2, 4⟩

def c3mat2 : BMaterial := ⟨"Iron.001", none, false, none, (3, 3, 3), 2, 4⟩

def c3sel : String → Option String := fun bn => if bn = "Iron" then some "Iron" else none

def c3conflict : UIConflict := ⟨"Iron", false⟩

def c3kmat1 : BMaterial := ⟨"Stone", none, false, none, (0, 0, 1), 0, 7⟩

def c3klinked : BMaterial := ⟨"Stone.001", some "lib.blend", false, none, (0, 0, 1), 0, 7⟩

def c3g1 : BMaterial := ⟨"Granite", none, false, none, (5, 5, 5), 1, 1⟩

def c3g2 : BMaterial := ⟨"Granite.001", none, false, none, (5, 5, 5), 1, 1⟩

def c3kcoll : List BMaterial := [c3kmat1, c3klinked, c3g1, c3g2]

def c3kconflicts : List UIConflict := [⟨"Stone", false⟩, ⟨"Granite", false⟩]

def c3ginfo : ConflictInfo BMaterial :=
  ⟨[c3g1, c3g2], [c3g1, c3g2], [], ["Local Duplicates"], [⟨c3g1, [c3g1, c3g2]⟩]⟩

/-- Closed witness for the C3 theorem on concrete materials: auto-clean
remaps the non-linked duplicate onto an identical keeper and every removal
has a prior remap; choose-data remaps the unselected local item onto the
user's pick; keep-linked remaps a local item onto a genuinely linked one
and leaves the conflict with no linked member untouched. -/
theorem C3_three_resolution_strategies_witness :
    (matIsLinked c3mat2 = false ∧ are_materials_identical c3mat2 c3mat1 = true) ∧
    (∃ k, CleanupEvent.remap c3mat2 k ∈
      (auto_clean_execution are_materials_identical matBaseName matIsLinked
        [c3mat1, c3mat2]).2) ∧
    (CleanupEvent.remap c3mat2 c3mat1 ∈
        (choose_data_execution matBaseName matIsLinked (fun m => m.mat_name) c3sel
          [c3conflict] [c3mat1, c3mat2]).2 ∧
      CleanupEvent.removed c3mat2 ∈
        (choose_data_execution matBaseName matIsLinked (fun m => m.mat_name) c3sel
          [c3conflict] [c3mat1, c3mat2]).2) ∧
    matIsLinked c3kmat1 = false ∧ matIsLinked c3klinked = true ∧
    (keep_linked_execution are_materials_identical matBaseName matIsLinked
        c3kconflicts c3kcoll).1.filter (fun i => matBaseName i == "Granite") =
      c3kcoll.filter (fun i => matBaseName i == "Granite") := by
  refine ⟨?_, ?_, ?_, ?_, ?_, ?_⟩
  · exact (C3_three_resolution_strategies.2.2.2.1 are_materials_identical matBaseName
      matIsLinked are_materials_identical_symm are_materials_identical_trans
      [c3mat1, c3mat2]).1 c3mat2 c3mat1 (by decide)
  · exact (C3_three_resolution_strategies.2.2.2.1 are_materials_identical matBaseName
      matIsLinked are_materials_identical_symm are_materials_identical_trans
      [c3mat1, c3mat2]).2 c3mat2 (by decide)
  · have h := C3_three_resolution_strategies.2.2.2.2.1 matBaseName matIsLinked
      (fun m => m.mat_name) c3sel [] [] c3conflict [c3mat1, c3mat2]
      (by simp) rfl (by decide) "Iron" (by decide) (by decide) c3mat1 (by decide)
    exact h.2 c3mat2 (by decide) (by decide) rfl
  · exact ((C3_three_resolution_strategies.2.2.2.2.2 are_materials_identical matBaseName
      matIsLinked c3kconflicts c3kcoll).1 c3kmat1 c3klinked (by decide)).1
  · exact ((C3_three_resolution_strategies.2.2.2.2.2 are_materials_identical matBaseName
      matIsLinked c3kconflicts c3kcoll).1 c3kmat1 c3klinked (by decide)).2.1
  · refine (C3_three_resolution_strategies.2.2.2.2.2 are_materials_identical matBaseName
      matIsLinked c3kconflicts c3kcoll).2 "Granite" (fun info h => ?_)
    rw [show (analyze_data_conflicts_with_grouping are_materials_identical matBaseName
      matIsLinked c3kcoll).lookup "Granite" = some c3ginfo from by decide] at h
    injection h with h3
    subst h3
    rfl
